import Mathlib

set_option maxRecDepth 100000

/-!
Verification of the JWT authentication gate of `src/3c/ej3c2.py`.

The file shallowly embeds the program: `generate_jwt_token`, the
`jwt_required` decorator body (`decorated_function`) and the `login` route
are translated from the source; the behaviour of the PyJWT library calls
(`jwt.encode` / `jwt.decode`, HMAC-SHA256, base64url, JSON) is modelled
from the library's documented semantics, with the keyed hash idealized as a
collision-free keyed function (the symbolic-crypto idealization: the
properties proved here depend only on its determinism and injectivity in
the signed message).  Machine integers are `Int`/`Nat`; epoch timestamps
are `Int` seconds (PyJWT's float clock comparisons against integer claims
coincide with the floor-integer comparisons used here).
-/

/-- Named characters, so that quote/backslash/brace characters never appear
as literals. -/
def quoteChar : Char := Char.ofNat 34

def backslashChar : Char := Char.ofNat 92

def lbraceChar : Char := Char.ofNat 123

def rbraceChar : Char := Char.ofNat 125

/-- UTF-8 encoding of a single character (RFC 3629), as byte values. -/
def utf8Char (c : Char) : List Nat :=
  let n := c.toNat
  if n < 128 then [n]
  else if n < 2048 then [192 + n / 64, 128 + n % 64]
  else if n < 65536 then [224 + n / 4096, 128 + n / 64 % 64, 128 + n % 64]
  else [240 + n / 262144, 128 + n / 4096 % 64, 128 + n / 64 % 64, 128 + n % 64]

/-- UTF-8 encoding of a character list. -/
def utf8Encode (l : List Char) : List Nat := l.flatMap utf8Char

/-- UTF-8 decoding of one leading character; returns the character and the
remaining bytes, `none` on malformed input.  Not recursive. -/
def utf8DecodeOne (l : List Nat) : Option (Char × List Nat) :=
  match l with
  | [] => none
  | b :: bs =>
    if b < 128 then some (Char.ofNat b, bs)
    else if b < 192 then none
    else if b < 224 then
      match bs with
      | b2 :: bs2 =>
        if 128 ≤ b2 ∧ b2 < 192 then
          some (Char.ofNat ((b - 192) * 64 + (b2 - 128)), bs2)
        else none
      | [] => none
    else if b < 240 then
      match bs with
      | b2 :: b3 :: bs3 =>
        if 128 ≤ b2 ∧ b2 < 192 ∧ 128 ≤ b3 ∧ b3 < 192 then
          some (Char.ofNat ((b - 224) * 4096 + (b2 - 128) * 64 + (b3 - 128)), bs3)
        else none
      | _ => none
    else if b < 248 then
      match bs with
      | b2 :: b3 :: b4 :: bs4 =>
        if 128 ≤ b2 ∧ b2 < 192 ∧ 128 ≤ b3 ∧ b3 < 192 ∧ 128 ≤ b4 ∧ b4 < 192 then
          some (Char.ofNat ((b - 240) * 262144 + (b2 - 128) * 4096 +
            (b3 - 128) * 64 + (b4 - 128)), bs4)
        else none
      | _ => none
    else none

/-- UTF-8 decoding, character by character, with explicit fuel (one unit per
byte suffices). -/
def utf8DecodeAux : Nat → List Nat → Option (List Char)
  | _, [] => some []
  | 0, _ :: _ => none
  | fuel + 1, b :: bs =>
    match utf8DecodeOne (b :: bs) with
    | none => none
    | some (c, rest) => (utf8DecodeAux fuel rest).map fun cs => c :: cs

/-- UTF-8 decoding of a byte list; `none` on malformed input. -/
def utf8Decode (l : List Nat) : Option (List Char) := utf8DecodeAux l.length l

/-- The base64url alphabet (RFC 4648 §5). -/
def b64Alphabet : List Char :=
  ['A','B','C','D','E','F','G','H','I','J','K','L','M','N','O','P','Q','R','S','T',
   'U','V','W','X','Y','Z','a','b','c','d','e','f','g','h','i','j','k','l','m','n',
   'o','p','q','r','s','t','u','v','w','x','y','z','0','1','2','3','4','5','6','7',
   '8','9','-','_']

/-- Character of a 6-bit value. -/
def alphaChar (i : Nat) : Char := b64Alphabet.getD i 'A'

def alphaIdxAux (c : Char) : List Char → Nat → Option Nat
  | [], _ => none
  | d :: ds, i => if d = c then some i else alphaIdxAux c ds (i + 1)

/-- Value (6-bit) of a base64url character; `none` for characters outside the
alphabet. -/
def alphaIdx (c : Char) : Option Nat := alphaIdxAux c b64Alphabet 0

/-- base64url encoding without padding, as produced by PyJWT's
`base64url_encode` (strip the `=` padding). -/
def b64Encode : List Nat → List Char
  | [] => []
  | [b1] => [alphaChar (b1 / 4), alphaChar (b1 % 4 * 16)]
  | [b1, b2] => [alphaChar (b1 / 4), alphaChar (b1 % 4 * 16 + b2 / 16),
      alphaChar (b2 % 16 * 4)]
  | b1 :: b2 :: b3 :: rest =>
      alphaChar (b1 / 4) :: alphaChar (b1 % 4 * 16 + b2 / 16) ::
      alphaChar (b2 % 16 * 4 + b3 / 64) :: alphaChar (b3 % 64) :: b64Encode rest

/-- base64url decoding of an unpadded segment, as done by PyJWT's
`base64url_decode` (re-pad to a multiple of four, then decode); fails when a
character is outside the alphabet or the length is 1 modulo 4. -/
def b64Decode : List Char → Option (List Nat)
  | [] => some []
  | [c1, c2] => do
      let i1 ← alphaIdx c1
      let i2 ← alphaIdx c2
      pure [i1 * 4 + i2 / 16]
  | [c1, c2, c3] => do
      let i1 ← alphaIdx c1
      let i2 ← alphaIdx c2
      let i3 ← alphaIdx c3
      pure [i1 * 4 + i2 / 16, i2 % 16 * 16 + i3 / 4]
  | c1 :: c2 :: c3 :: c4 :: rest => do
      let i1 ← alphaIdx c1
      let i2 ← alphaIdx c2
      let i3 ← alphaIdx c3
      let i4 ← alphaIdx c4
      let tl ← b64Decode rest
      pure ((i1 * 4 + i2 / 16) :: (i2 % 16 * 16 + i3 / 4) :: (i3 % 4 * 64 + i4) :: tl)
  | [_] => none

/-- Everything before the first dot, and the rest (beginning with the dot
when one exists). -/
def breakDot : List Char → (List Char × List Char)
  | [] => ([], [])
  | c :: cs =>
    if c = '.' then ([], c :: cs)
    else
      let p := breakDot cs
      (c :: p.1, p.2)

/-- Split a compact JWS `header.payload.signature` string: header is
everything before the first dot, signature everything after the last dot,
payload the part in between, mirroring PyJWT's
`jwt.rsplit(b".", 1)` followed by `signing_input.split(b".", 1)`;
`none` when there are fewer than two dots (PyJWT: `DecodeError`,
"Not enough segments"). -/
def tokenSplit (l : List Char) : Option (List Char × List Char × List Char) :=
  let p := breakDot l
  match p.2 with
  | [] => none
  | _ :: rest =>
    let q := breakDot rest.reverse
    match q.2 with
    | [] => none
    | _ :: pRev => some (p.1, pRev.reverse, q.1.reverse)

/-- JSON values appearing in JWT headers and payloads of this program:
strings and integers (the only value types the program ever serializes). -/
inductive JVal where
  | jstr : String → JVal
  | jint : Int → JVal
deriving DecidableEq

/-- A flat JSON object, as a key/value association list. -/
abbrev JObj := List (String × JVal)

/-- JSON string escaping as in `json.dumps` for the characters the program
can emit: quote and backslash are escaped; other characters are kept
verbatim (the `ensure_ascii` hex escaping of `json.dumps` is a
representation detail not modelled; both sides of the codec agree on it). -/
def escapeChars : List Char → List Char
  | [] => []
  | c :: cs =>
    if c = quoteChar ∨ c = backslashChar then backslashChar :: c :: escapeChars cs
    else c :: escapeChars cs

/-- A JSON string literal. -/
def serStrChars (s : String) : List Char :=
  quoteChar :: (escapeChars s.data ++ [quoteChar])

/-- Decimal digits of a natural number, most significant first (fuelled so
that it reduces inside the kernel; any fuel above the digit count gives the
same result). -/
def natCharsAux : Nat → Nat → List Char
  | 0, _ => []
  | fuel + 1, n =>
    if n < 10 then [Char.ofNat (48 + n)]
    else natCharsAux fuel (n / 10) ++ [Char.ofNat (48 + n % 10)]

/-- Decimal digits of a natural number, most significant first. -/
def natChars (n : Nat) : List Char := natCharsAux (n + 1) n

/-- Decimal representation of an integer, as printed by `str`/`json.dumps`. -/
def intChars (i : Int) : List Char :=
  if i < 0 then '-' :: natChars (- i).toNat else natChars i.toNat

/-- Serialization of a JSON value. -/
def serJVal : JVal → List Char
  | .jstr s => serStrChars s
  | .jint n => intChars n

/-- Serialization of the fields of a JSON object with
`separators=(",", ":")`, as PyJWT passes to `json.dumps`. -/
def serFields : JObj → List Char
  | [] => []
  | [(k, v)] => serStrChars k ++ (':' :: serJVal v)
  | (k, v) :: rest => serStrChars k ++ (':' :: serJVal v) ++ (',' :: serFields rest)

/-- Compact serialization of a JSON object. -/
def serObjChars (o : JObj) : List Char :=
  lbraceChar :: (serFields o ++ [rbraceChar])

/-- Parse the body of a JSON string literal (the opening quote already
consumed) up to its closing quote, undoing `escapeChars`. -/
def parseStrBody : List Char → Option (List Char × List Char)
  | [] => none
  | c :: cs =>
    if c = quoteChar then some ([], cs)
    else if c = backslashChar then
      match cs with
      | [] => none
      | d :: ds =>
        if d = quoteChar ∨ d = backslashChar then
          (parseStrBody ds).map fun p => (d :: p.1, p.2)
        else none
    else (parseStrBody cs).map fun p => (c :: p.1, p.2)

def isDigitCh (c : Char) : Bool := decide (48 ≤ c.toNat ∧ c.toNat ≤ 57)

/-- Longest digit prefix and the rest. -/
def takeDigits : List Char → (List Char × List Char)
  | [] => ([], [])
  | c :: cs =>
    if isDigitCh c then
      let p := takeDigits cs
      (c :: p.1, p.2)
    else ([], c :: cs)

/-- Value of a digit string. -/
def digitsVal (l : List Char) : Nat :=
  l.foldl (fun acc c => acc * 10 + (c.toNat - 48)) 0

/-- Parse a (possibly negative) decimal integer prefix. -/
def parseIntChars (l : List Char) : Option (Int × List Char) :=
  match l with
  | [] => none
  | c :: cs =>
    if c = '-' then
      let p := takeDigits cs
      if p.1 = [] then none else some (- (digitsVal p.1 : Int), p.2)
    else
      let p := takeDigits (c :: cs)
      if p.1 = [] then none else some ((digitsVal p.1 : Int), p.2)

/-- Parse one JSON value (string literal or integer). -/
def parseJVal (l : List Char) : Option (JVal × List Char) :=
  match l with
  | [] => none
  | c :: cs =>
    if c = quoteChar then (parseStrBody cs).map fun p => (JVal.jstr (String.mk p.1), p.2)
    else (parseIntChars (c :: cs)).map fun p => (JVal.jint p.1, p.2)

/-- One step of the object-field parser: one `"key":value` pair, then either
a comma (continue via `rec`) or the closing brace. -/
def parsePairsStep (rec : List Char → Option (JObj × List Char)) (l : List Char) :
    Option (JObj × List Char) :=
  match l with
  | [] => none
  | c :: cs =>
    if c = quoteChar then
      match parseStrBody cs with
      | none => none
      | some (k, rest1) =>
        match rest1 with
        | [] => none
        | c1 :: rest2 =>
          if c1 = ':' then
            match parseJVal rest2 with
            | none => none
            | some (v, rest3) =>
              match rest3 with
              | [] => none
              | c2 :: rest4 =>
                if c2 = ',' then (rec rest4).map fun p => ((String.mk k, v) :: p.1, p.2)
                else if c2 = rbraceChar then some ([(String.mk k, v)], rest4)
                else none
          else none
    else none

/-- Fields of a JSON object, fuelled (one unit of fuel per field suffices). -/
def parsePairs : Nat → List Char → Option (JObj × List Char)
  | 0, _ => none
  | fuel + 1, l => parsePairsStep (parsePairs fuel) l

/-- Parse a complete compact JSON object (full consumption required), the
fragment of `json.loads` relevant to this program: flat objects with string
and integer values, compact separators, no `\u` escapes.  Inputs that are
not such an object fail, as `json.loads` fails on malformed input (the
verifier treats both identically). -/
def parseObjChars (l : List Char) : Option JObj :=
  match l with
  | [] => none
  | c :: cs =>
    if c = lbraceChar then
      match cs with
      | [] => none
      | d :: ds =>
        if d = rbraceChar then (if ds = [] then some [] else none)
        else
          match parsePairs cs.length cs with
          | some (o, []) => some o
          | _ => none
    else none

/-- Modelled from the spec (§4.1 `sign`): the HMAC-SHA256 keyed hash over
the encoded signing input, computed by the external `hmac`/`hashlib`
libraries in the real program.  Idealized as a collision-free keyed
function (key, then a tag byte, then the message): for each fixed key it is
injective in the message by cancellation of `++`.  The verification
properties proved here use only determinism and that injectivity. -/
def hmacSha256 (key msg : List Nat) : List Nat := key ++ (0 :: msg)

/-- The failure modes of `jwt.decode`, mirroring PyJWT's exception classes
(`DecodeError` split by site, `InvalidAlgorithmError`,
`InvalidSignatureError`, `InvalidIssuedAtError`, `ImmatureSignatureError`,
`ExpiredSignatureError`, `InvalidSubjectError`) — all of them subclasses of
`InvalidTokenError`, and `ExpiredSignatureError` the one the decorator
catches separately. -/
inductive VerifyErr where
  | notEnoughSegments
  | invalidHeaderPadding
  | invalidHeaderString
  | invalidPayloadPadding
  | invalidCryptoPadding
  | invalidAlgorithm
  | signatureMismatch
  | invalidPayloadString
  | invalidIssuedAt
  | invalidNotBefore
  | invalidExpiration
  | immatureSignature
  | expiredSignature
  | invalidSubject
deriving DecidableEq

/-- The data recovered by PyJWT's `api_jws._load`. -/
structure LoadedJws where
  headerSeg : List Char
  payloadSeg : List Char
  headerObj : JObj
  payloadBytes : List Nat
  sigBytes : List Nat
deriving DecidableEq

/-- PyJWT `api_jws._load`: split segments, base64url-decode the header,
JSON-parse the header, base64url-decode payload and signature segments.
Any failure is a `DecodeError`. -/
def jwsLoad (tok : List Char) : Except VerifyErr LoadedJws :=
  match tokenSplit tok with
  | none => Except.error VerifyErr.notEnoughSegments
  | some (hSeg, pSeg, sSeg) =>
    match b64Decode hSeg with
    | none => Except.error VerifyErr.invalidHeaderPadding
    | some hBytes =>
      match utf8Decode hBytes with
      | none => Except.error VerifyErr.invalidHeaderString
      | some hChars =>
        match parseObjChars hChars with
        | none => Except.error VerifyErr.invalidHeaderString
        | some hObj =>
          match b64Decode pSeg with
          | none => Except.error VerifyErr.invalidPayloadPadding
          | some pBytes =>
            match b64Decode sSeg with
            | none => Except.error VerifyErr.invalidCryptoPadding
            | some sBytes => Except.ok ⟨hSeg, pSeg, hObj, pBytes, sBytes⟩

/-- PyJWT `api_jws._verify_signature` with `algorithms=["HS256"]`: the
header's `alg` must be the allowed `"HS256"` (missing, empty or non-string
`alg` fails the same way), then the recomputed keyed hash over the encoded
`header.payload` signing input must equal the token's signature bytes. -/
def verifySignature (key : String) (lj : LoadedJws) : Except VerifyErr Unit :=
  match lj.headerObj.lookup "alg" with
  | some (JVal.jstr a) =>
    if a = "HS256" then
      if lj.sigBytes =
          hmacSha256 (utf8Encode key.data)
            (utf8Encode (lj.headerSeg ++ ('.' :: lj.payloadSeg))) then
        Except.ok ()
      else Except.error VerifyErr.signatureMismatch
    else Except.error VerifyErr.invalidAlgorithm
  | _ => Except.error VerifyErr.invalidAlgorithm

/-- Python `int(x)` on a claim value: integers pass through, strings are
parsed as decimal integers (else `ValueError`). -/
def intFromJVal : JVal → Option Int
  | .jint n => some n
  | .jstr s =>
    match parseIntChars s.data with
    | some (n, []) => some n
    | _ => none

/-- PyJWT `_validate_iat` (leeway 0): an `iat` claim that cannot coerce to
an integer is `InvalidIssuedAtError`; a future `iat > now` is
`ImmatureSignatureError`. -/
def validateIat (payload : JObj) (now : Int) : Except VerifyErr Unit :=
  match payload.lookup "iat" with
  | none => Except.ok ()
  | some v =>
    match intFromJVal v with
    | none => Except.error VerifyErr.invalidIssuedAt
    | some iat =>
      if iat > now then Except.error VerifyErr.immatureSignature else Except.ok ()

/-- PyJWT `_validate_nbf` (leeway 0). -/
def validateNbf (payload : JObj) (now : Int) : Except VerifyErr Unit :=
  match payload.lookup "nbf" with
  | none => Except.ok ()
  | some v =>
    match intFromJVal v with
    | none => Except.error VerifyErr.invalidNotBefore
    | some nbf =>
      if nbf > now then Except.error VerifyErr.immatureSignature else Except.ok ()

/-- PyJWT `_validate_exp` (leeway 0): expired exactly when `exp <= now`. -/
def validateExp (payload : JObj) (now : Int) : Except VerifyErr Unit :=
  match payload.lookup "exp" with
  | none => Except.ok ()
  | some v =>
    match intFromJVal v with
    | none => Except.error VerifyErr.invalidExpiration
    | some e =>
      if e ≤ now then Except.error VerifyErr.expiredSignature else Except.ok ()

/-- PyJWT `_validate_sub` with no expected subject: when present, `sub`
must be a string. -/
def validateSub (payload : JObj) : Except VerifyErr Unit :=
  match payload.lookup "sub" with
  | none => Except.ok ()
  | some (JVal.jstr _) => Except.ok ()
  | some _ => Except.error VerifyErr.invalidSubject

/-- PyJWT `_validate_claims` with default options: `iat`, then `nbf`, then
`exp`, then `sub`; each claim is validated only when present. -/
def validateClaims (payload : JObj) (now : Int) : Except VerifyErr Unit := do
  validateIat payload now
  validateNbf payload now
  validateExp payload now
  validateSub payload

/-- PyJWT payload recovery in `api_jwt.decode_complete`: the payload bytes
must parse as a JSON object. -/
def parsePayload (payloadBytes : List Nat) : Except VerifyErr JObj :=
  match utf8Decode payloadBytes with
  | none => Except.error VerifyErr.invalidPayloadString
  | some pChars =>
    match parseObjChars pChars with
    | none => Except.error VerifyErr.invalidPayloadString
    | some o => Except.ok o

/-- Model of `jwt.decode(token, key, algorithms=["HS256"])`: load, verify alg and
signature, parse the payload, validate the registered claims at time
`now` (PyJWT reads `now` from the system clock inside the call; it is an
explicit argument here). -/
def jwtDecode (token : String) (key : String) (now : Int) : Except VerifyErr JObj := do
  let lj ← jwsLoad token.data
  verifySignature key lj
  let payload ← parsePayload lj.payloadBytes
  validateClaims payload now
  pure payload

/-- Model of `jwt.encode(payload, key, algorithm="HS256")`: serialize the fixed
header and the payload, base64url-encode both, sign the encoded signing
input, append the encoded signature. -/
def jwtHeaderObj : JObj := [("typ", JVal.jstr "JWT"), ("alg", JVal.jstr "HS256")]

def jwtEncode (payload : JObj) (key : String) : String :=
  let hSeg := b64Encode (utf8Encode (serObjChars jwtHeaderObj))
  let pSeg := b64Encode (utf8Encode (serObjChars payload))
  let sSeg := b64Encode (hmacSha256 (utf8Encode key.data)
    (utf8Encode (hSeg ++ ('.' :: pSeg))))
  String.mk (hSeg ++ ('.' :: (pSeg ++ ('.' :: sSeg))))

/-- The `JWT_SECRET_KEY` constant of `ej3c2.py`. -/
def JWT_SECRET_KEY : String := "clave_secreta_jwt_para_firmar_tokens"

/-- The `JWT_EXPIRATION_DELTA = datetime.timedelta(hours=1)` constant, in seconds. -/
def JWT_EXPIRATION_DELTA : Int := 3600

/-- The `USER_CREDENTIALS` table of `ej3c2.py`. -/
def USER_CREDENTIALS : List (String × String) := [("usuario_demo", "password123")]

/-- The `generate_jwt_token(username)` function of `ej3c2.py`; `now` is the integer
epoch second the function reads from the system clock
(`datetime.datetime.now(timezone.utc)`): `iat = int(now.timestamp()) - 1`,
`exp = int((now + JWT_EXPIRATION_DELTA).timestamp())`, payload
`{sub, iat, exp}` in that insertion order, signed with `JWT_SECRET_KEY`. -/
def generate_jwt_token (username : String) (now : Int) : String :=
  let iat := now - 1
  let exp := now + JWT_EXPIRATION_DELTA
  jwtEncode [("sub", JVal.jstr username), ("iat", JVal.jint iat),
    ("exp", JVal.jint exp)] JWT_SECRET_KEY

/-- The observable parts of a Flask request used by the program: the
`Authorization` header (`none` when absent), the parsed JSON body, and the
system-clock reading (integer epoch second) at the time the request is
handled. -/
structure HttpRequest where
  authHeader : Option String
  jsonBody : List (String × String)
  clockNow : Int

def isPySpace (c : Char) : Bool :=
  c = ' ' ∨ c = Char.ofNat 9 ∨ c = Char.ofNat 10 ∨ c = Char.ofNat 13 ∨
    c = Char.ofNat 11 ∨ c = Char.ofNat 12

def splitWSAux : List Char → List Char → List (List Char)
  | [], acc => if acc = [] then [] else [acc.reverse]
  | c :: cs, acc =>
    if isPySpace c then
      if acc = [] then splitWSAux cs [] else acc.reverse :: splitWSAux cs []
    else splitWSAux cs (c :: acc)

/-- Python `str.split()` with no arguments: split on runs of whitespace,
no leading/trailing empty fields. -/
def pySplitWS (s : String) : List String := (splitWSAux s.data []).map String.mk

/-- Python `str.lower()` (ASCII range, which is all the comparison uses). -/
def pyLower (s : String) : String := String.mk (s.data.map Char.toLower)

/-- An error response of the program: the `error` string of the
`jsonify({'error': ...})` body together with the HTTP status code. -/
abbrev ErrResponse := String × Nat

/-- The token-checking prefix of `decorated_function` in `ej3c2.py`
(everything before `return func(*args, **kwargs)`): read the
`Authorization` header (absent or empty fails: `if not auth_header`),
require exactly two whitespace-separated parts with
`parts[0].lower() == "bearer"`, then `jwt.decode` the second part with
`JWT_SECRET_KEY`; `ExpiredSignatureError` and `InvalidTokenError` map to
the two 401 error responses of the source. -/
def jwt_required_gate (req : HttpRequest) : Except ErrResponse JObj :=
  match req.authHeader with
  | none => Except.error ("Token inválido ", 401)
  | some auth_header =>
    if auth_header = "" then Except.error ("Token inválido ", 401)
    else
      let parts := pySplitWS auth_header
      if parts.length ≠ 2 ∨ pyLower (parts.headD "") ≠ "bearer" then
        Except.error ("Token inválido ", 401)
      else
        match jwtDecode (parts.getD 1 "") JWT_SECRET_KEY req.clockNow with
        | Except.ok decoded => Except.ok decoded
        | Except.error VerifyErr.expiredSignature => Except.error ("Token expirado", 401)
        | Except.error _ => Except.error ("Token inválido o ausente", 401)

/-- The `decorated_function` of the `jwt_required` decorator: on success the
decoded payload is attached to the request and the wrapped `func` runs on
it; on any failure the 401 error response is returned and `func` is never
invoked. -/
def decorated_function {α : Type} (func : JObj → α) (req : HttpRequest) :
    Except ErrResponse α :=
  match jwt_required_gate req with
  | Except.error e => Except.error e
  | Except.ok payload => Except.ok (func payload)

/-- The `login` route of `ej3c2.py`: missing or empty username/password,
unknown user, or wrong password give the 401 `Credenciales inválidas`
response; otherwise a token is issued for the username at the current
clock reading.  (The `expires_at` presentation field of the success
response is not modelled.) -/
def login (req : HttpRequest) : Except ErrResponse String :=
  let username := req.jsonBody.lookup "username"
  let password := req.jsonBody.lookup "password"
  match username, password with
  | some u, some p =>
    if u = "" ∨ p = "" then Except.error ("Credenciales inválidas", 401)
    else
      match USER_CREDENTIALS.lookup u with
      | none => Except.error ("Credenciales inválidas", 401)
      | some expected =>
        if expected ≠ p then Except.error ("Credenciales inválidas", 401)
        else Except.ok (generate_jwt_token u req.clockNow)
  | _, _ => Except.error ("Credenciales inválidas", 401)

/-- The payload segment of a token string (between the first and the last
dot), empty when the token does not split. -/
def payloadSegOf (tok : String) : List Char :=
  match tokenSplit tok.data with
  | some (_, p, _) => p
  | none => []

/-- The token obtained by replacing the character at position `i` of the
payload segment by `c` (the token itself when it does not split). -/
def flipPayloadChar (tok : String) (i : Nat) (c : Char) : String :=
  match tokenSplit tok.data with
  | some (h, p, s) => String.mk (h ++ ('.' :: (p.set i c ++ ('.' :: s))))
  | none => tok

/-- The claims a token carries (segments decode and payload parses),
independent of signature validity and of any claim validation. -/
def claimsOf (tok : String) : Option JObj :=
  match jwsLoad tok.data with
  | Except.error _ => none
  | Except.ok lj =>
    match parsePayload lj.payloadBytes with
    | Except.error _ => none
    | Except.ok o => some o

/-- The `alg` declared by a token's header, when the token loads and the
header carries a string `alg`. -/
def headerAlgOf (tok : String) : Option String :=
  match jwsLoad tok.data with
  | Except.error _ => none
  | Except.ok lj =>
    match lj.headerObj.lookup "alg" with
    | some (JVal.jstr a) => some a
    | _ => none


instance {e a : Type} [DecidableEq e] [DecidableEq a] : DecidableEq (Except e a) := fun x y =>
  match x, y with
  | Except.ok u, Except.ok v =>
    if h : u = v then Decidable.isTrue (by rw [h])
    else Decidable.isFalse (fun hc => h (Except.ok.inj hc))
  | Except.error u, Except.error v =>
    if h : u = v then Decidable.isTrue (by rw [h])
    else Decidable.isFalse (fun hc => h (Except.error.inj hc))
  | Except.ok _, Except.error _ => Decidable.isFalse (fun hc => Except.noConfusion hc)
  | Except.error _, Except.ok _ => Decidable.isFalse (fun hc => Except.noConfusion hc)


/-- Whether a token's signature verifies under `key` (loads and passes
`verifySignature`), independent of claim validation. -/
def signatureOk (tok key : String) : Bool :=
  match jwsLoad tok.data with
  | Except.ok lj => decide (verifySignature key lj = Except.ok ())
  | Except.error _ => false

theorem char_toNat_lt (c : Char) : c.toNat < 1114112 := by
  rcases c.valid with h | ⟨h1, h2⟩
  · exact Nat.lt_trans h (by norm_num)
  · exact h2

theorem utf8Char_bytes_lt (c : Char) : ∀ b ∈ utf8Char c, b < 256 := by
  have hv := char_toNat_lt c
  unfold utf8Char
  intro b hb
  by_cases h1 : c.toNat < 128
  · simp [h1] at hb; omega
  · by_cases h2 : c.toNat < 2048
    · simp [h1, h2] at hb
      rcases hb with h | h <;> omega
    · by_cases h3 : c.toNat < 65536
      · simp [h1, h2, h3] at hb
        rcases hb with h | h | h <;> omega
      · simp [h1, h2, h3] at hb
        rcases hb with h | h | h | h <;> omega

theorem utf8Encode_bytes_lt (l : List Char) : ∀ b ∈ utf8Encode l, b < 256 := by
  intro b hb
  simp only [utf8Encode, List.mem_flatMap] at hb
  obtain ⟨c, _, hbc⟩ := hb
  exact utf8Char_bytes_lt c b hbc

theorem utf8Char_ne_nil (c : Char) : utf8Char c ≠ [] := by
  simp only [utf8Char]
  split_ifs <;> simp

theorem utf8DecodeOne_utf8Char (c : Char) (rest : List Nat) :
    utf8DecodeOne (utf8Char c ++ rest) = some (c, rest) := by
  have hv := char_toNat_lt c
  unfold utf8Char
  by_cases h1 : c.toNat < 128
  · simp only [h1, if_true, List.cons_append, List.nil_append]
    unfold utf8DecodeOne
    simp [h1, Char.ofNat_toNat]
  · by_cases h2 : c.toNat < 2048
    · simp only [h1, if_false, h2, if_true, List.cons_append, List.nil_append]
      unfold utf8DecodeOne
      have ha : ¬ (192 + c.toNat / 64 < 128) := by omega
      have hb : ¬ (192 + c.toNat / 64 < 192) := by omega
      have hc : 192 + c.toNat / 64 < 224 := by omega
      have hd : 128 ≤ 128 + c.toNat % 64 ∧ 128 + c.toNat % 64 < 192 := by
        constructor <;> omega
      have hg : (192 + c.toNat / 64 - 192) * 64 + (128 + c.toNat % 64 - 128)
          = c.toNat := by omega
      simp [ha, hb, hc, hd]
      have hz : c.toNat / 64 * 64 + c.toNat % 64 = c.toNat := by omega
      rw [hz, Char.ofNat_toNat]
    · by_cases h3 : c.toNat < 65536
      · simp only [h1, if_false, h2, h3, if_true, List.cons_append, List.nil_append]
        unfold utf8DecodeOne
        have ha : ¬ (224 + c.toNat / 4096 < 128) := by omega
        have hb : ¬ (224 + c.toNat / 4096 < 192) := by omega
        have hc : ¬ (224 + c.toNat / 4096 < 224) := by omega
        have hd : 224 + c.toNat / 4096 < 240 := by omega
        have he : 128 ≤ 128 + c.toNat / 64 % 64 ∧ 128 + c.toNat / 64 % 64 < 192 ∧
            128 ≤ 128 + c.toNat % 64 ∧ 128 + c.toNat % 64 < 192 :=
          ⟨by omega, by omega, by omega, by omega⟩
        have hf : (224 + c.toNat / 4096 - 224) * 4096 +
            (128 + c.toNat / 64 % 64 - 128) * 64 + (128 + c.toNat % 64 - 128)
            = c.toNat := by omega
        simp [ha, hb, hc, hd, he]
        have hz : c.toNat / 4096 * 4096 + c.toNat / 64 % 64 * 64 + c.toNat % 64
            = c.toNat := by omega
        rw [hz, Char.ofNat_toNat]
      · simp only [h1, if_false, h2, h3, List.cons_append, List.nil_append]
        unfold utf8DecodeOne
        have ha : ¬ (240 + c.toNat / 262144 < 128) := by omega
        have hb : ¬ (240 + c.toNat / 262144 < 192) := by omega
        have hc : ¬ (240 + c.toNat / 262144 < 224) := by omega
        have hd : ¬ (240 + c.toNat / 262144 < 240) := by omega
        have he : 240 + c.toNat / 262144 < 248 := by omega
        have hf : 128 ≤ 128 + c.toNat / 4096 % 64 ∧ 128 + c.toNat / 4096 % 64 < 192 ∧
            128 ≤ 128 + c.toNat / 64 % 64 ∧ 128 + c.toNat / 64 % 64 < 192 ∧
            128 ≤ 128 + c.toNat % 64 ∧ 128 + c.toNat % 64 < 192 :=
          ⟨by omega, by omega, by omega, by omega, by omega, by omega⟩
        have hg : (240 + c.toNat / 262144 - 240) * 262144 +
            (128 + c.toNat / 4096 % 64 - 128) * 4096 +
            (128 + c.toNat / 64 % 64 - 128) * 64 + (128 + c.toNat % 64 - 128)
            = c.toNat := by omega
        simp [ha, hb, hc, hd, he, hf]
        have hz : c.toNat / 262144 * 262144 + c.toNat / 4096 % 64 * 4096 +
            c.toNat / 64 % 64 * 64 + c.toNat % 64 = c.toNat := by omega
        rw [hz, Char.ofNat_toNat]

theorem utf8DecodeAux_encode :
    ∀ (l : List Char) (fuel : Nat), (utf8Encode l).length ≤ fuel →
      utf8DecodeAux fuel (utf8Encode l) = some l := by
  intro l
  induction l with
  | nil => intro fuel _; cases fuel <;> rfl
  | cons c cs ih =>
    intro fuel hfuel
    have henc : utf8Encode (c :: cs) = utf8Char c ++ utf8Encode cs := by
      simp [utf8Encode]
    rw [henc] at hfuel ⊢
    have h1 : 1 ≤ (utf8Char c).length :=
      List.length_pos.mpr (utf8Char_ne_nil c)
    rw [List.length_append] at hfuel
    obtain ⟨b, bs, hbs⟩ : ∃ b bs, utf8Char c = b :: bs := by
      cases hx : utf8Char c with
      | nil => exact absurd hx (utf8Char_ne_nil c)
      | cons b bs => exact ⟨b, bs, rfl⟩
    obtain ⟨f, rfl⟩ : ∃ f, fuel = f + 1 := by
      cases fuel with
      | zero => omega
      | succ f => exact ⟨f, rfl⟩
    rw [hbs, List.cons_append, utf8DecodeAux]
    rw [← List.cons_append, ← hbs, utf8DecodeOne_utf8Char]
    have hcs : (utf8Encode cs).length ≤ f := by
      rw [hbs] at hfuel
      simp at hfuel
      omega
    simp [ih f hcs]

theorem utf8Decode_utf8Encode (l : List Char) : utf8Decode (utf8Encode l) = some l :=
  utf8DecodeAux_encode l _ le_rfl

theorem utf8Encode_injective {a b : List Char} (h : utf8Encode a = utf8Encode b) :
    a = b := by
  have ha := utf8Decode_utf8Encode a
  have hb := utf8Decode_utf8Encode b
  rw [h, hb] at ha
  exact ((Option.some.injEq _ _).mp ha).symm

theorem alphaChar_mem (i : Nat) : alphaChar i ∈ b64Alphabet := by
  unfold alphaChar
  by_cases h : i < b64Alphabet.length
  · rw [List.getD_eq_getElem _ _ h]
    exact List.getElem_mem h
  · rw [List.getD_eq_default _ _ (Nat.le_of_not_lt h)]
    decide

theorem alphaIdx_alphaChar : ∀ i, i < 64 → alphaIdx (alphaChar i) = some i := by decide

theorem dot_not_mem_b64Alphabet : ('.' : Char) ∉ b64Alphabet := by decide

theorem alphaChar_ne_dot (i : Nat) : alphaChar i ≠ '.' := by
  intro h
  exact dot_not_mem_b64Alphabet (h ▸ alphaChar_mem i)

theorem b64Decode_b64Encode :
    ∀ bs : List Nat, (∀ b ∈ bs, b < 256) → b64Decode (b64Encode bs) = some bs := by
  intro bs
  induction bs using b64Encode.induct with
  | case1 =>
    intro _
    rfl
  | case2 b1 =>
    intro hb
    have h1 : b1 < 256 := hb b1 (by simp)
    rw [b64Encode, b64Decode]
    rw [alphaIdx_alphaChar (b1 / 4) (by omega),
        alphaIdx_alphaChar (b1 % 4 * 16) (by omega)]
    simp
    omega
  | case3 b1 b2 =>
    intro hb
    have h1 : b1 < 256 := hb b1 (by simp)
    have h2 : b2 < 256 := hb b2 (by simp)
    rw [b64Encode, b64Decode]
    rw [alphaIdx_alphaChar (b1 / 4) (by omega),
        alphaIdx_alphaChar (b1 % 4 * 16 + b2 / 16) (by omega),
        alphaIdx_alphaChar (b2 % 16 * 4) (by omega)]
    simp
    constructor
    · omega
    · omega
  | case4 b1 b2 b3 rest ih =>
    intro hb
    have h1 : b1 < 256 := hb b1 (by simp)
    have h2 : b2 < 256 := hb b2 (by simp)
    have h3 : b3 < 256 := hb b3 (by simp)
    have hrest : ∀ b ∈ rest, b < 256 := fun b hbm => hb b (by simp [hbm])
    rw [b64Encode, b64Decode]
    rw [alphaIdx_alphaChar (b1 / 4) (by omega),
        alphaIdx_alphaChar (b1 % 4 * 16 + b2 / 16) (by omega),
        alphaIdx_alphaChar (b2 % 16 * 4 + b3 / 64) (by omega),
        alphaIdx_alphaChar (b3 % 64) (by omega),
        ih hrest]
    simp
    refine ⟨by omega, by omega, by omega⟩

theorem b64Encode_mem_alphabet :
    ∀ (bs : List Nat) (c : Char), c ∈ b64Encode bs → c ∈ b64Alphabet := by
  intro bs
  induction bs using b64Encode.induct with
  | case1 => intro c hc; simp [b64Encode] at hc
  | case2 b1 =>
    intro c hc
    rw [b64Encode] at hc
    simp only [List.mem_cons, List.not_mem_nil, or_false] at hc
    rcases hc with rfl | rfl <;> exact alphaChar_mem _
  | case3 b1 b2 =>
    intro c hc
    rw [b64Encode] at hc
    simp only [List.mem_cons, List.not_mem_nil, or_false] at hc
    rcases hc with rfl | rfl | rfl <;> exact alphaChar_mem _
  | case4 b1 b2 b3 rest ih =>
    intro c hc
    rw [b64Encode] at hc
    simp only [List.mem_cons] at hc
    rcases hc with rfl | rfl | rfl | rfl | hc
    · exact alphaChar_mem _
    · exact alphaChar_mem _
    · exact alphaChar_mem _
    · exact alphaChar_mem _
    · exact ih c hc

theorem b64Decode_length_mod :
    ∀ (l : List Char) (bs : List Nat), b64Decode l = some bs → l.length % 4 ≠ 1 := by
  intro l
  induction l using b64Decode.induct with
  | case1 => intro bs _; simp
  | case2 c1 c2 => intro bs _; simp
  | case3 c1 c2 c3 => intro bs _; simp
  | case4 c1 c2 c3 c4 rest ih =>
    intro bs h
    rw [b64Decode] at h
    simp only [bind, Option.bind_eq_some, Option.pure_def, Option.some.injEq] at h
    obtain ⟨i1, h1, i2, h2, i3, h3, i4, h4, tl, htl, hbs⟩ := h
    have := ih tl htl
    simp only [List.length_cons]
    omega
  | case5 c =>
    intro bs h
    rw [b64Decode] at h
    exact absurd h (by simp)

theorem b64Decode_mem_isSome :
    ∀ (l : List Char) (bs : List Nat), b64Decode l = some bs →
      ∀ c ∈ l, (alphaIdx c).isSome := by
  intro l
  induction l using b64Decode.induct with
  | case1 => intro bs _ c hc; simp at hc
  | case2 c1 c2 =>
    intro bs h c hc
    rw [b64Decode] at h
    simp only [bind, Option.bind_eq_some, Option.pure_def, Option.some.injEq] at h
    obtain ⟨i1, h1, i2, h2, hbs⟩ := h
    simp only [List.mem_cons, List.not_mem_nil, or_false] at hc
    rcases hc with rfl | rfl <;> simp [h1, h2]
  | case3 c1 c2 c3 =>
    intro bs h c hc
    rw [b64Decode] at h
    simp only [bind, Option.bind_eq_some, Option.pure_def, Option.some.injEq] at h
    obtain ⟨i1, h1, i2, h2, i3, h3, hbs⟩ := h
    simp only [List.mem_cons, List.not_mem_nil, or_false] at hc
    rcases hc with rfl | rfl | rfl <;> simp [h1, h2, h3]
  | case4 c1 c2 c3 c4 rest ih =>
    intro bs h c hc
    rw [b64Decode] at h
    simp only [bind, Option.bind_eq_some, Option.pure_def, Option.some.injEq] at h
    obtain ⟨i1, h1, i2, h2, i3, h3, i4, h4, tl, htl, hbs⟩ := h
    simp only [List.mem_cons] at hc
    rcases hc with rfl | rfl | rfl | rfl | hc
    · simp [h1]
    · simp [h2]
    · simp [h3]
    · simp [h4]
    · exact ih tl htl c hc
  | case5 c =>
    intro bs h
    rw [b64Decode] at h
    exact absurd h (by simp)

theorem b64Decode_isSome_of_valid :
    ∀ l : List Char, (∀ c ∈ l, (alphaIdx c).isSome) → l.length % 4 ≠ 1 →
      ∃ bs, b64Decode l = some bs := by
  intro l
  induction l using b64Decode.induct with
  | case1 => intro _ _; exact ⟨[], rfl⟩
  | case2 c1 c2 =>
    intro ha _
    obtain ⟨i1, h1⟩ := Option.isSome_iff_exists.mp (ha c1 (by simp))
    obtain ⟨i2, h2⟩ := Option.isSome_iff_exists.mp (ha c2 (by simp))
    refine ⟨[i1 * 4 + i2 / 16], ?_⟩
    rw [b64Decode, h1, h2]
    rfl
  | case3 c1 c2 c3 =>
    intro ha _
    obtain ⟨i1, h1⟩ := Option.isSome_iff_exists.mp (ha c1 (by simp))
    obtain ⟨i2, h2⟩ := Option.isSome_iff_exists.mp (ha c2 (by simp))
    obtain ⟨i3, h3⟩ := Option.isSome_iff_exists.mp (ha c3 (by simp))
    refine ⟨[i1 * 4 + i2 / 16, i2 % 16 * 16 + i3 / 4], ?_⟩
    rw [b64Decode, h1, h2, h3]
    rfl
  | case4 c1 c2 c3 c4 rest ih =>
    intro ha hlen
    obtain ⟨i1, h1⟩ := Option.isSome_iff_exists.mp (ha c1 (by simp))
    obtain ⟨i2, h2⟩ := Option.isSome_iff_exists.mp (ha c2 (by simp))
    obtain ⟨i3, h3⟩ := Option.isSome_iff_exists.mp (ha c3 (by simp))
    obtain ⟨i4, h4⟩ := Option.isSome_iff_exists.mp (ha c4 (by simp))
    have harest : ∀ c ∈ rest, (alphaIdx c).isSome := fun c hc => ha c (by simp [hc])
    have hlrest : rest.length % 4 ≠ 1 := by
      simp only [List.length_cons] at hlen
      omega
    obtain ⟨tl, htl⟩ := ih harest hlrest
    refine ⟨(i1 * 4 + i2 / 16) :: (i2 % 16 * 16 + i3 / 4) :: (i3 % 4 * 64 + i4) :: tl, ?_⟩
    rw [b64Decode, h1, h2, h3, h4, htl]
    rfl
  | case5 c =>
    intro _ hlen
    simp at hlen

theorem breakDot_no_dot :
    ∀ l : List Char, (∀ c ∈ l, c ≠ '.') → breakDot l = (l, []) := by
  intro l
  induction l with
  | nil => intro _; rfl
  | cons c cs ih =>
    intro h
    have hc : c ≠ '.' := h c (by simp)
    simp [breakDot, hc, ih (fun d hd => h d (List.mem_cons_of_mem c hd))]

theorem breakDot_append (a r : List Char) (ha : ∀ c ∈ a, c ≠ '.') :
    breakDot (a ++ ('.' :: r)) = (a, '.' :: r) := by
  induction a with
  | nil => simp [breakDot]
  | cons c cs ih =>
    have hc : c ≠ '.' := ha c (by simp)
    simp [breakDot, hc, ih (fun d hd => ha d (by simp [hd]))]

theorem tokenSplit_mk (h p s : List Char) (hh : ∀ c ∈ h, c ≠ '.')
    (hs : ∀ c ∈ s, c ≠ '.') :
    tokenSplit (h ++ ('.' :: (p ++ ('.' :: s)))) = some (h, p, s) := by
  unfold tokenSplit
  rw [breakDot_append h _ hh]
  have hrev : (p ++ ('.' :: s)).reverse = s.reverse ++ ('.' :: p.reverse) := by
    rw [List.reverse_append, List.reverse_cons, List.append_assoc]
    simp
  simp only [hrev]
  rw [breakDot_append s.reverse _ (fun c hc => hs c (List.mem_reverse.mp hc))]
  simp

theorem parseStrBody_escape :
    ∀ (s rest : List Char),
      parseStrBody (escapeChars s ++ (quoteChar :: rest)) = some (s, rest) := by
  intro s
  induction s with
  | nil =>
    intro rest
    rw [show escapeChars [] = [] from rfl, List.nil_append, parseStrBody.eq_def]
    simp
  | cons c cs ih =>
    intro rest
    by_cases hc : c = quoteChar ∨ c = backslashChar
    · have h1 : ¬ (backslashChar = quoteChar) := by decide
      rw [show escapeChars (c :: cs) = backslashChar :: c :: escapeChars cs by
        simp [escapeChars, hc]]
      rw [List.cons_append, List.cons_append, parseStrBody.eq_def]
      simp [h1, hc, ih]
    · have h1 : ¬ (c = quoteChar) := fun hx => hc (Or.inl hx)
      have h2 : ¬ (c = backslashChar) := fun hx => hc (Or.inr hx)
      rw [show escapeChars (c :: cs) = c :: escapeChars cs by simp [escapeChars, hc]]
      rw [List.cons_append, parseStrBody.eq_def]
      simp [h1, h2, ih]

theorem digit_char_lemmas : ∀ m, m < 10 →
    isDigitCh (Char.ofNat (48 + m)) = true ∧ (Char.ofNat (48 + m)).toNat = 48 + m ∧
    Char.ofNat (48 + m) ≠ '-' ∧ Char.ofNat (48 + m) ≠ quoteChar := by decide

theorem natCharsAux_all_digits :
    ∀ (fuel n : Nat), n < fuel → ∀ c ∈ natCharsAux fuel n, isDigitCh c = true := by
  intro fuel
  induction fuel with
  | zero => intro n h; omega
  | succ f ih =>
    intro n hn c hc
    rw [natCharsAux] at hc
    by_cases h10 : n < 10
    · simp only [h10, if_true, List.mem_singleton] at hc
      subst hc
      exact (digit_char_lemmas n h10).1
    · simp only [h10, if_false, List.mem_append, List.mem_singleton] at hc
      rcases hc with hc | hc
      · exact ih (n / 10) (by omega) c hc
      · subst hc
        exact (digit_char_lemmas (n % 10) (by omega)).1

theorem natChars_all_digits : ∀ n, ∀ c ∈ natChars n, isDigitCh c = true :=
  fun n => natCharsAux_all_digits (n + 1) n (by omega)

theorem natChars_ne_nil (n : Nat) : natChars n ≠ [] := by
  unfold natChars natCharsAux
  split_ifs <;> simp

theorem digitsVal_append_digit (a : List Char) (c : Char) :
    digitsVal (a ++ [c]) = digitsVal a * 10 + (c.toNat - 48) := by
  unfold digitsVal
  rw [List.foldl_append]
  rfl

theorem natCharsAux_irrel :
    ∀ (f1 n : Nat), n < f1 → ∀ (f2 : Nat), n < f2 →
      natCharsAux f1 n = natCharsAux f2 n := by
  intro f1
  induction f1 with
  | zero => intro n h; omega
  | succ f ih =>
    intro n hn f2 hf2
    obtain ⟨g, rfl⟩ : ∃ g, f2 = g + 1 := by
      cases f2 with
      | zero => omega
      | succ g => exact ⟨g, rfl⟩
    rw [natCharsAux, natCharsAux]
    by_cases h10 : n < 10
    · simp [h10]
    · simp only [h10, if_false]
      rw [ih (n / 10) (by omega) g (by omega)]

theorem digitsVal_natCharsAux :
    ∀ (fuel n : Nat), n < fuel → digitsVal (natCharsAux fuel n) = n := by
  intro fuel
  induction fuel with
  | zero => intro n h; omega
  | succ f ih =>
    intro n hn
    rw [natCharsAux]
    by_cases h10 : n < 10
    · simp only [h10, if_true]
      unfold digitsVal
      simp [List.foldl_cons, (digit_char_lemmas n h10).2.1]
    · simp only [h10, if_false]
      rw [digitsVal_append_digit, ih (n / 10) (by omega),
        (digit_char_lemmas (n % 10) (by omega)).2.1]
      omega

theorem digitsVal_natChars : ∀ n, digitsVal (natChars n) = n :=
  fun n => digitsVal_natCharsAux (n + 1) n (by omega)

theorem takeDigits_append (a b : List Char) (ha : ∀ c ∈ a, isDigitCh c = true)
    (hb : ∀ c, b.head? = some c → isDigitCh c = false) :
    takeDigits (a ++ b) = (a, b) := by
  induction a with
  | nil =>
    cases b with
    | nil => rfl
    | cons c bs =>
      have := hb c rfl
      simp [takeDigits, this]
  | cons c cs ih =>
    have hc := ha c (by simp)
    simp [takeDigits, hc, ih (fun d hd => ha d (by simp [hd]))]

theorem natChars_head_digit (n : Nat) :
    ∃ c cs, natChars n = c :: cs ∧ isDigitCh c = true := by
  cases hx : natChars n with
  | nil => exact absurd hx (natChars_ne_nil n)
  | cons c cs =>
    exact ⟨c, cs, rfl, natChars_all_digits n c (by rw [hx]; simp)⟩

theorem isDigit_ne_dash (c : Char) (h : isDigitCh c = true) : c ≠ '-' := by
  intro he
  subst he
  revert h
  decide

theorem isDigit_ne_quote (c : Char) (h : isDigitCh c = true) : c ≠ quoteChar := by
  intro he
  subst he
  revert h
  decide

theorem string_mk_data (s : String) : String.mk s.data = s := rfl

theorem parseIntChars_intChars (n : Int) (rest : List Char)
    (hrest : ∀ c, rest.head? = some c → isDigitCh c = false) :
    parseIntChars (intChars n ++ rest) = some (n, rest) := by
  unfold intChars
  by_cases hn : n < 0
  · simp only [hn, if_true, List.cons_append]
    rw [parseIntChars.eq_def]
    have hdash : ('-' : Char) = '-' := rfl
    simp only [hdash, if_true]
    rw [takeDigits_append _ _ (natChars_all_digits _) hrest]
    simp only [natChars_ne_nil, if_false, digitsVal_natChars]
    simp
    omega
  · obtain ⟨c, cs, hcons, hdig⟩ := natChars_head_digit n.toNat
    simp only [hn, if_false, hcons, List.cons_append]
    rw [parseIntChars.eq_def]
    have hnd : ¬ (c = '-') := isDigit_ne_dash c hdig
    simp only [hnd, if_false]
    rw [← List.cons_append, ← hcons,
      takeDigits_append _ _ (natChars_all_digits _) hrest]
    simp only [natChars_ne_nil, if_false, digitsVal_natChars]
    simp
    omega

theorem parseJVal_ser (v : JVal) (rest : List Char)
    (hrest : ∀ c, rest.head? = some c → isDigitCh c = false) :
    parseJVal (serJVal v ++ rest) = some (v, rest) := by
  cases v with
  | jstr s =>
    show parseJVal (serStrChars s ++ rest) = some (JVal.jstr s, rest)
    unfold serStrChars
    rw [List.cons_append, parseJVal.eq_def]
    simp only [if_pos rfl]
    rw [List.append_assoc, List.singleton_append, parseStrBody_escape]
    simp [string_mk_data]
  | jint n =>
    show parseJVal (intChars n ++ rest) = some (JVal.jint n, rest)
    obtain ⟨c, cs, hcons, hcq⟩ : ∃ c cs, intChars n = c :: cs ∧ c ≠ quoteChar := by
      unfold intChars
      by_cases hn : n < 0
      · exact ⟨'-', natChars (- n).toNat, by simp [hn], by decide⟩
      · obtain ⟨c, cs, hcons, hdig⟩ := natChars_head_digit n.toNat
        exact ⟨c, cs, by simp [hn, hcons], isDigit_ne_quote c hdig⟩
    rw [hcons, List.cons_append, parseJVal.eq_def]
    simp only [hcq, if_false]
    rw [← List.cons_append, ← hcons, parseIntChars_intChars n rest hrest]
    rfl

theorem parsePairsStep_ser (recf : List Char → Option (JObj × List Char))
    (k : String) (v : JVal) (c0 : Char) (cs0 : List Char)
    (hd : isDigitCh c0 = false) :
    parsePairsStep recf (serStrChars k ++ (':' :: (serJVal v ++ (c0 :: cs0)))) =
      (if c0 = ',' then (recf cs0).map fun p => ((k, v) :: p.1, p.2)
       else if c0 = rbraceChar then some ([(k, v)], cs0)
       else none) := by
  unfold serStrChars
  rw [List.cons_append, parsePairsStep.eq_def]
  simp only [if_pos rfl]
  rw [List.append_assoc, List.singleton_append, parseStrBody_escape]
  have hv : parseJVal (serJVal v ++ (c0 :: cs0)) = some (v, c0 :: cs0) :=
    parseJVal_ser v (c0 :: cs0) (fun c hc => by
      simp only [List.head?_cons, Option.some.injEq] at hc
      subst hc
      exact hd)
  have hcolon : (':' : Char) ≠ quoteChar := by decide
  simp [hv, string_mk_data]

theorem parsePairs_serFields :
    ∀ (o : JObj) (fuel : Nat), o ≠ [] → o.length ≤ fuel →
      parsePairs fuel (serFields o ++ [rbraceChar]) = some (o, []) := by
  intro o
  induction o with
  | nil => intro fuel h _; exact absurd rfl h
  | cons kv rest ih =>
    intro fuel _ hlen
    obtain ⟨k, v⟩ := kv
    obtain ⟨f, rfl⟩ : ∃ f, fuel = f + 1 := by
      cases fuel with
      | zero => simp at hlen
      | succ f => exact ⟨f, rfl⟩
    cases rest with
    | nil =>
      have hs : serFields [(k, v)] = serStrChars k ++ (':' :: serJVal v) := rfl
      rw [parsePairs, hs]
      rw [List.append_assoc, List.cons_append]
      rw [parsePairsStep_ser (parsePairs f) k v rbraceChar [] (by decide)]
      simp only [show (rbraceChar ≠ ',') from by decide, if_neg, if_pos rfl]
      simp
    | cons kv2 rest2 =>
      have hs : serFields ((k, v) :: kv2 :: rest2) =
          serStrChars k ++ (':' :: serJVal v) ++ (',' :: serFields (kv2 :: rest2)) := rfl
      rw [parsePairs, hs]
      rw [List.append_assoc, List.append_assoc, List.cons_append, List.cons_append]
      rw [parsePairsStep_ser (parsePairs f) k v ','
        (serFields (kv2 :: rest2) ++ [rbraceChar]) (by decide)]
      simp only [if_pos rfl]
      rw [ih f (by simp) (by simp at hlen ⊢; omega)]
      rfl

theorem serFields_length (o : JObj) : o.length ≤ (serFields o).length := by
  induction o with
  | nil => simp
  | cons kv rest ih =>
    obtain ⟨k, v⟩ := kv
    cases rest with
    | nil =>
      have hs : serFields [(k, v)] = serStrChars k ++ (':' :: serJVal v) := rfl
      rw [hs]
      simp [serStrChars]
    | cons kv2 rest2 =>
      have hs : serFields ((k, v) :: kv2 :: rest2) =
          serStrChars k ++ (':' :: serJVal v) ++ (',' :: serFields (kv2 :: rest2)) := rfl
      rw [hs]
      simp only [List.length_append, List.length_cons, serStrChars]
      simp only [List.length_cons] at ih ⊢
      omega

theorem parseObjChars_serObjChars (o : JObj) : parseObjChars (serObjChars o) = some o := by
  cases o with
  | nil => rfl
  | cons kv rest =>
    obtain ⟨k, v⟩ := kv
    obtain ⟨tl, htl⟩ : ∃ tl, serFields ((k, v) :: rest) = quoteChar :: tl := by
      cases rest <;> exact ⟨_, rfl⟩
    unfold serObjChars
    rw [parseObjChars.eq_def]
    simp only [if_pos rfl]
    rw [htl, List.cons_append]
    have hqr : ¬ (quoteChar = rbraceChar) := by decide
    simp only [hqr, if_false]
    rw [← List.cons_append, ← htl]
    rw [parsePairs_serFields ((k, v) :: rest) _ (by simp) ?_]
    · rfl
    · have h1 := serFields_length ((k, v) :: rest)
      simp only [List.length_append, List.length_cons]
      simp only [List.length_cons] at h1
      omega

theorem b64Encode_no_dot (bs : List Nat) : ∀ c ∈ b64Encode bs, c ≠ '.' :=
  fun c hc he => dot_not_mem_b64Alphabet (he ▸ b64Encode_mem_alphabet bs c hc)

theorem hmac_bytes_lt (k m : List Char) :
    ∀ b ∈ hmacSha256 (utf8Encode k) (utf8Encode m), b < 256 := by
  intro b hb
  unfold hmacSha256 at hb
  rw [List.mem_append] at hb
  rcases hb with hb | hb
  · exact utf8Encode_bytes_lt k b hb
  · rw [List.mem_cons] at hb
    rcases hb with rfl | hb
    · omega
    · exact utf8Encode_bytes_lt m b hb

theorem jwtEncode_data (payload : JObj) (key : String) :
    (jwtEncode payload key).data =
      b64Encode (utf8Encode (serObjChars jwtHeaderObj)) ++
        ('.' :: (b64Encode (utf8Encode (serObjChars payload)) ++
          ('.' :: b64Encode (hmacSha256 (utf8Encode key.data)
            (utf8Encode (b64Encode (utf8Encode (serObjChars jwtHeaderObj)) ++
              ('.' :: b64Encode (utf8Encode (serObjChars payload))))))))) := rfl

theorem jwsLoad_jwtEncode (payload : JObj) (key : String) :
    jwsLoad (jwtEncode payload key).data = Except.ok
      ⟨b64Encode (utf8Encode (serObjChars jwtHeaderObj)),
       b64Encode (utf8Encode (serObjChars payload)),
       jwtHeaderObj,
       utf8Encode (serObjChars payload),
       hmacSha256 (utf8Encode key.data)
         (utf8Encode (b64Encode (utf8Encode (serObjChars jwtHeaderObj)) ++
           ('.' :: b64Encode (utf8Encode (serObjChars payload)))))⟩ := by
  rw [jwtEncode_data]
  unfold jwsLoad
  have hs1 : b64Decode (b64Encode (utf8Encode (serObjChars jwtHeaderObj))) =
      some (utf8Encode (serObjChars jwtHeaderObj)) :=
    b64Decode_b64Encode _ (utf8Encode_bytes_lt _)
  have hs2 : b64Decode (b64Encode (utf8Encode (serObjChars payload))) =
      some (utf8Encode (serObjChars payload)) :=
    b64Decode_b64Encode _ (utf8Encode_bytes_lt _)
  have hs3 : b64Decode (b64Encode (hmacSha256 (utf8Encode key.data)
      (utf8Encode (b64Encode (utf8Encode (serObjChars jwtHeaderObj)) ++
        ('.' :: b64Encode (utf8Encode (serObjChars payload))))))) =
      some (hmacSha256 (utf8Encode key.data)
        (utf8Encode (b64Encode (utf8Encode (serObjChars jwtHeaderObj)) ++
          ('.' :: b64Encode (utf8Encode (serObjChars payload)))))) :=
    b64Decode_b64Encode _ (hmac_bytes_lt _ _)
  rw [tokenSplit_mk _ _ _ (b64Encode_no_dot _) (b64Encode_no_dot _)]
  simp only [hs1, hs2, hs3, utf8Decode_utf8Encode, parseObjChars_serObjChars]

theorem jwtDecode_jwtEncode (payload : JObj) (key : String) (now : Int) :
    jwtDecode (jwtEncode payload key) key now =
      match validateClaims payload now with
      | Except.ok _ => Except.ok payload
      | Except.error e => Except.error e := by
  unfold jwtDecode
  rw [jwsLoad_jwtEncode]
  have hsig : verifySignature key
      ⟨b64Encode (utf8Encode (serObjChars jwtHeaderObj)),
       b64Encode (utf8Encode (serObjChars payload)),
       jwtHeaderObj,
       utf8Encode (serObjChars payload),
       hmacSha256 (utf8Encode key.data)
         (utf8Encode (b64Encode (utf8Encode (serObjChars jwtHeaderObj)) ++
           ('.' :: b64Encode (utf8Encode (serObjChars payload)))))⟩ = Except.ok () := by
    unfold verifySignature
    have halg : List.lookup "alg" jwtHeaderObj = some (JVal.jstr "HS256") := rfl
    simp [halg]
  have hpay : parsePayload (utf8Encode (serObjChars payload)) = Except.ok payload := by
    unfold parsePayload
    simp only [utf8Decode_utf8Encode, parseObjChars_serObjChars]
  simp only [bind, Except.bind, hsig, hpay]
  cases validateClaims payload now with
  | ok u => cases u; rfl
  | error e => rfl

theorem validateClaims_issue (s : String) (t now : Int) (h1 : t - 1 ≤ now)
    (h2 : now < t + 3600) :
    validateClaims [("sub", JVal.jstr s), ("iat", JVal.jint (t - 1)),
      ("exp", JVal.jint (t + 3600))] now = Except.ok () := by
  unfold validateClaims
  have hiat : validateIat [("sub", JVal.jstr s), ("iat", JVal.jint (t - 1)),
      ("exp", JVal.jint (t + 3600))] now = Except.ok () := by
    unfold validateIat
    have hl : List.lookup "iat" [("sub", JVal.jstr s), ("iat", JVal.jint (t - 1)),
        ("exp", JVal.jint (t + 3600))] = some (JVal.jint (t - 1)) := rfl
    rw [hl]
    simp only [intFromJVal]
    rw [if_neg (by omega)]
  have hnbf : validateNbf [("sub", JVal.jstr s), ("iat", JVal.jint (t - 1)),
      ("exp", JVal.jint (t + 3600))] now = Except.ok () := by
    unfold validateNbf
    have hl : List.lookup "nbf" [("sub", JVal.jstr s), ("iat", JVal.jint (t - 1)),
        ("exp", JVal.jint (t + 3600))] = none := rfl
    rw [hl]
  have hexp : validateExp [("sub", JVal.jstr s), ("iat", JVal.jint (t - 1)),
      ("exp", JVal.jint (t + 3600))] now = Except.ok () := by
    unfold validateExp
    have hl : List.lookup "exp" [("sub", JVal.jstr s), ("iat", JVal.jint (t - 1)),
        ("exp", JVal.jint (t + 3600))] = some (JVal.jint (t + 3600)) := rfl
    rw [hl]
    simp only [intFromJVal]
    rw [if_neg (by omega)]
  have hsub : validateSub [("sub", JVal.jstr s), ("iat", JVal.jint (t - 1)),
      ("exp", JVal.jint (t + 3600))] = Except.ok () := by
    unfold validateSub
    have hl : List.lookup "sub" [("sub", JVal.jstr s), ("iat", JVal.jint (t - 1)),
        ("exp", JVal.jint (t + 3600))] = some (JVal.jstr s) := rfl
    rw [hl]
  simp only [bind, Except.bind, hiat, hnbf, hexp, hsub]

theorem jwtDecode_generate (s : String) (t now : Int) (h1 : t - 1 ≤ now)
    (h2 : now < t + 3600) :
    jwtDecode (generate_jwt_token s t) JWT_SECRET_KEY now =
      Except.ok [("sub", JVal.jstr s), ("iat", JVal.jint (t - 1)),
        ("exp", JVal.jint (t + 3600))] := by
  unfold generate_jwt_token JWT_EXPIRATION_DELTA
  rw [jwtDecode_jwtEncode, validateClaims_issue s t now h1 h2]

theorem splitWSAux_no_space :
    ∀ (b acc : List Char), (∀ c ∈ b, isPySpace c = false) →
      acc.reverse ++ b ≠ [] → splitWSAux b acc = [acc.reverse ++ b] := by
  intro b
  induction b with
  | nil =>
    intro acc _ hne
    rw [splitWSAux]
    have hacc : ¬ (acc = []) := by
      intro h
      subst h
      simp at hne
    simp [hacc]
  | cons c cs ih =>
    intro acc hb hne
    have hc := hb c (by simp)
    rw [splitWSAux]
    simp only [hc, Bool.false_eq_true, if_false]
    rw [ih (c :: acc) (fun d hd => hb d (by simp [hd])) (by simp)]
    simp

theorem splitWSAux_word :
    ∀ (a b acc : List Char), (∀ c ∈ a, isPySpace c = false) →
      acc.reverse ++ a ≠ [] →
      splitWSAux (a ++ (' ' :: b)) acc = (acc.reverse ++ a) :: splitWSAux b [] := by
  intro a
  induction a with
  | nil =>
    intro b acc _ hne
    simp only [List.nil_append]
    rw [splitWSAux]
    have hsp : isPySpace ' ' = true := by decide
    have hacc : ¬ (acc = []) := by
      intro h
      subst h
      simp at hne
    simp [hsp, hacc]
  | cons c cs ih =>
    intro b acc ha hne
    have hc := ha c (by simp)
    rw [List.cons_append, splitWSAux]
    simp only [hc, Bool.false_eq_true, if_false]
    rw [ih b (c :: acc) (fun d hd => ha d (by simp [hd])) (by simp)]
    simp

theorem pySplitWS_bearer (tok : String) (htok : ∀ c ∈ tok.data, isPySpace c = false)
    (hne : tok.data ≠ []) :
    pySplitWS ("Bearer " ++ tok) = ["Bearer", tok] := by
  unfold pySplitWS
  have hdata : ("Bearer " ++ tok).data = "Bearer".data ++ (' ' :: tok.data) := by
    have h1 : ("Bearer " ++ tok).data = "Bearer ".data ++ tok.data := String.data_append _ _
    rw [h1]
    rfl
  rw [hdata]
  rw [splitWSAux_word "Bearer".data tok.data [] (by decide) (by decide)]
  rw [splitWSAux_no_space tok.data [] htok (by simpa using hne)]
  simp [string_mk_data]

theorem gate_bearer (tok : String) (body : List (String × String)) (now : Int)
    (htok : ∀ c ∈ tok.data, isPySpace c = false) (hne : tok.data ≠ []) :
    jwt_required_gate ⟨some ("Bearer " ++ tok), body, now⟩ =
      match jwtDecode tok JWT_SECRET_KEY now with
      | Except.ok decoded => Except.ok decoded
      | Except.error VerifyErr.expiredSignature => Except.error ("Token expirado", 401)
      | Except.error _ => Except.error ("Token inválido o ausente", 401) := by
  unfold jwt_required_gate
  have hne2 : ¬ ("Bearer " ++ tok = "") := by
    intro h
    have h2 := congrArg String.data h
    rw [String.data_append] at h2
    simp at h2
  simp only [hne2, if_false]
  rw [pySplitWS_bearer tok htok hne]
  have hcond : ¬ ((["Bearer", tok] : List String).length ≠ 2 ∨
      pyLower ((["Bearer", tok] : List String).headD "") ≠ "bearer") := by
    push_neg
    exact ⟨rfl, rfl⟩
  rw [if_neg hcond]
  rfl

theorem except_bind_ok {e a b : Type} (x : Except e a) (f : a → Except e b) (v : b)
    (h : (x >>= f) = Except.ok v) : ∃ u, x = Except.ok u ∧ f u = Except.ok v := by
  cases x with
  | error err => simp [Bind.bind, Except.bind] at h
  | ok u => exact ⟨u, rfl, by simpa [Bind.bind, Except.bind] using h⟩

theorem except_bind_okk {e a b : Type} (x : Except e a) (f : a → Except e b) (u : a)
    (h : x = Except.ok u) : (x >>= f) = f u := by
  rw [h]
  rfl

theorem except_bind_err {e a b : Type} (x : Except e a) (f : a → Except e b) (err : e)
    (h : x = Except.error err) : (x >>= f) = Except.error err := by
  rw [h]
  rfl

theorem jwtDecode_ok_stages (tok key : String) (now : Int) (obj : JObj)
    (h : jwtDecode tok key now = Except.ok obj) :
    ∃ lj, jwsLoad tok.data = Except.ok lj ∧ verifySignature key lj = Except.ok () ∧
      parsePayload lj.payloadBytes = Except.ok obj ∧
      validateClaims obj now = Except.ok () := by
  unfold jwtDecode at h
  obtain ⟨lj, hload, h⟩ := except_bind_ok _ _ _ h
  obtain ⟨u, hsig, h⟩ := except_bind_ok _ _ _ h
  cases u
  obtain ⟨p, hpay, h⟩ := except_bind_ok _ _ _ h
  obtain ⟨u2, hval, h⟩ := except_bind_ok _ _ _ h
  cases u2
  have hpo : p = obj := by simpa [pure, Except.pure] using h
  subst hpo
  exact ⟨lj, hload, hsig, hpay, hval⟩

theorem jwtDecode_of_load_error (tok key : String) (now : Int) (e : VerifyErr)
    (h : jwsLoad tok.data = Except.error e) :
    jwtDecode tok key now = Except.error e := by
  unfold jwtDecode
  simp only [except_bind_err _ _ _ h]

theorem jwtDecode_of_sig_error (tok key : String) (now : Int) (lj : LoadedJws)
    (e : VerifyErr) (hload : jwsLoad tok.data = Except.ok lj)
    (hsig : verifySignature key lj = Except.error e) :
    jwtDecode tok key now = Except.error e := by
  unfold jwtDecode
  simp only [except_bind_okk _ _ _ hload, except_bind_err _ _ _ hsig]

theorem jwsLoad_ok_inv (tok : List Char) (lj : LoadedJws)
    (h : jwsLoad tok = Except.ok lj) :
    ∃ sSeg hBytes hChars,
      tokenSplit tok = some (lj.headerSeg, lj.payloadSeg, sSeg) ∧
      b64Decode lj.headerSeg = some hBytes ∧
      utf8Decode hBytes = some hChars ∧
      parseObjChars hChars = some lj.headerObj ∧
      b64Decode lj.payloadSeg = some lj.payloadBytes ∧
      b64Decode sSeg = some lj.sigBytes := by
  unfold jwsLoad at h
  split at h
  · simp at h
  · rename_i hSeg pSeg sSeg hts
    split at h
    · simp at h
    · rename_i hBytes hb1
      split at h
      · simp at h
      · rename_i hChars hu
        split at h
        · simp at h
        · rename_i hObj hp
          split at h
          · simp at h
          · rename_i pBytes hb2
            split at h
            · simp at h
            · rename_i sBytes hb3
              simp only [Except.ok.injEq] at h
              subst h
              exact ⟨sSeg, hBytes, hChars, hts, hb1, hu, hp, hb2, hb3⟩

theorem verifySignature_ok_inv (key : String) (lj : LoadedJws)
    (h : verifySignature key lj = Except.ok ()) :
    List.lookup "alg" lj.headerObj = some (JVal.jstr "HS256") ∧
    lj.sigBytes = hmacSha256 (utf8Encode key.data)
      (utf8Encode (lj.headerSeg ++ ('.' :: lj.payloadSeg))) := by
  unfold verifySignature at h
  split at h
  · rename_i a hl
    split at h
    · rename_i ha
      subst ha
      split at h
      · rename_i hs
        exact ⟨hl, hs⟩
      · simp at h
    · simp at h
  · simp at h

theorem jwsLoad_mk (hSeg pSeg sSeg : List Char) (hBytes : List Nat)
    (hChars : List Char) (hObj : JObj) (pBytes sBytes : List Nat)
    (hh : ∀ c ∈ hSeg, c ≠ '.') (hs : ∀ c ∈ sSeg, c ≠ '.')
    (h1 : b64Decode hSeg = some hBytes) (h2 : utf8Decode hBytes = some hChars)
    (h3 : parseObjChars hChars = some hObj) (h4 : b64Decode pSeg = some pBytes)
    (h5 : b64Decode sSeg = some sBytes) :
    jwsLoad (hSeg ++ ('.' :: (pSeg ++ ('.' :: sSeg)))) =
      Except.ok ⟨hSeg, pSeg, hObj, pBytes, sBytes⟩ := by
  unfold jwsLoad
  rw [tokenSplit_mk _ _ _ hh hs]
  simp only [h1, h2, h3, h4, h5]


theorem b64Decode_no_dot (l : List Char) (bs : List Nat)
    (h : b64Decode l = some bs) : ∀ c ∈ l, c ≠ '.' := by
  intro c hc he
  have h2 := b64Decode_mem_isSome l bs h c hc
  rw [he] at h2
  revert h2
  decide

theorem flip_cases (tok key : String) (now now2 : Int) (obj : JObj) (i : Nat) (c' : Char)
    (hok : jwtDecode tok key now = Except.ok obj)
    (hi : i < (payloadSegOf tok).length)
    (hne : c' ≠ (payloadSegOf tok).getD i 'A') :
    ((alphaIdx c').isSome →
      jwtDecode (flipPayloadChar tok i c') key now2 =
        Except.error VerifyErr.signatureMismatch) ∧
    (∀ obj2, jwtDecode (flipPayloadChar tok i c') key now2 ≠ Except.ok obj2) := by
  obtain ⟨lj, hload, hsig, hpay, hval⟩ := jwtDecode_ok_stages tok key now obj hok
  obtain ⟨sSeg, hBytes, hChars, hts, hb1, hu, hp, hb2, hb3⟩ :=
    jwsLoad_ok_inv tok.data lj hload
  obtain ⟨halg, hsigeq⟩ := verifySignature_ok_inv key lj hsig
  have hps : payloadSegOf tok = lj.payloadSeg := by
    unfold payloadSegOf
    rw [hts]
  rw [hps] at hi hne
  have hflip : (flipPayloadChar tok i c').data =
      lj.headerSeg ++ ('.' :: (lj.payloadSeg.set i c' ++ ('.' :: sSeg))) := by
    unfold flipPayloadChar
    rw [hts]
  have hhdot : ∀ c ∈ lj.headerSeg, c ≠ '.' := b64Decode_no_dot _ _ hb1
  have hsdot : ∀ c ∈ sSeg, c ≠ '.' := b64Decode_no_dot _ _ hb3
  have hts' : tokenSplit (flipPayloadChar tok i c').data =
      some (lj.headerSeg, lj.payloadSeg.set i c', sSeg) := by
    rw [hflip]
    exact tokenSplit_mk _ _ _ hhdot hsdot
  have hlen' : (lj.payloadSeg.set i c').length % 4 ≠ 1 := by
    rw [List.length_set]
    exact b64Decode_length_mod _ _ hb2
  have hget : (lj.payloadSeg.set i c').getD i 'A' = c' := by
    rw [List.getD_eq_getElem _ _ (by rw [List.length_set]; exact hi)]
    exact List.getElem_set_self _
  have hpne : lj.payloadSeg.set i c' ≠ lj.payloadSeg := by
    intro he
    apply hne
    have h2 := congrArg (fun l => l.getD i 'A') he
    simp only at h2
    rw [hget] at h2
    exact h2
  have hA : (alphaIdx c').isSome →
      jwtDecode (flipPayloadChar tok i c') key now2 =
        Except.error VerifyErr.signatureMismatch := by
    intro hsome
    obtain ⟨pB', hpb'⟩ := b64Decode_isSome_of_valid (lj.payloadSeg.set i c')
      (fun c hc => by
        rcases List.mem_or_eq_of_mem_set hc with hc2 | rfl
        · exact b64Decode_mem_isSome _ _ hb2 c hc2
        · exact hsome) hlen'
    have hload' : jwsLoad (flipPayloadChar tok i c').data =
        Except.ok ⟨lj.headerSeg, lj.payloadSeg.set i c', lj.headerObj, pB', lj.sigBytes⟩ := by
      rw [hflip]
      exact jwsLoad_mk _ _ _ _ _ _ _ _ hhdot hsdot hb1 hu hp hpb' hb3
    have hneq : lj.sigBytes ≠ hmacSha256 (utf8Encode key.data)
        (utf8Encode (lj.headerSeg ++ ('.' :: lj.payloadSeg.set i c'))) := by
      rw [hsigeq]
      intro heq
      unfold hmacSha256 at heq
      have h1 := List.append_cancel_left heq
      have h2 : utf8Encode (lj.headerSeg ++ ('.' :: lj.payloadSeg)) =
          utf8Encode (lj.headerSeg ++ ('.' :: lj.payloadSeg.set i c')) :=
        List.cons_injective h1
      have h3 := utf8Encode_injective h2
      have h4 := List.append_cancel_left h3
      have h5 : lj.payloadSeg = lj.payloadSeg.set i c' := List.cons_injective h4
      exact hpne h5.symm
    have hsig' : verifySignature key
        ⟨lj.headerSeg, lj.payloadSeg.set i c', lj.headerObj, pB', lj.sigBytes⟩ =
        Except.error VerifyErr.signatureMismatch := by
      unfold verifySignature
      dsimp only
      rw [halg]
      simp [hneq]
    exact jwtDecode_of_sig_error _ _ _ _ _ hload' hsig'
  refine ⟨hA, ?_⟩
  intro obj2 hok2
  by_cases hsome : (alphaIdx c').isSome
  · rw [hA hsome] at hok2
    simp at hok2
  · have hc'mem : c' ∈ lj.payloadSeg.set i c' := by
      have h1 : i < (lj.payloadSeg.set i c').length := by
        rw [List.length_set]
        exact hi
      have h2 := List.getElem_mem h1
      rwa [List.getElem_set_self] at h2
    cases hdec : b64Decode (lj.payloadSeg.set i c') with
    | some pB' => exact hsome (b64Decode_mem_isSome _ _ hdec c' hc'mem)
    | none =>
      have hload' : jwsLoad (flipPayloadChar tok i c').data =
          Except.error VerifyErr.invalidPayloadPadding := by
        unfold jwsLoad
        rw [hts']
        simp only [hb1, hu, hp, hdec]
      rw [jwtDecode_of_load_error _ _ now2 _ hload'] at hok2
      simp at hok2

theorem claimsOf_inv (tok : String) (obj : JObj) (h : claimsOf tok = some obj) :
    ∃ lj, jwsLoad tok.data = Except.ok lj ∧
      parsePayload lj.payloadBytes = Except.ok obj := by
  unfold claimsOf at h
  split at h
  · simp at h
  · rename_i lj hl
    split at h
    · simp at h
    · rename_i o hp
      simp only [Option.some.injEq] at h
      subst h
      exact ⟨lj, hl, hp⟩

theorem validateSub_err (obj : JObj) (e : VerifyErr)
    (h : validateSub obj = Except.error e) : e = VerifyErr.invalidSubject := by
  unfold validateSub at h
  split at h
  · simp at h
  · simp at h
  · simp only [Except.error.injEq] at h
    exact h.symm

theorem expiry_iff (tok key : String) (now : Int) (obj : JObj) (n : Int)
    (hcl : claimsOf tok = some obj)
    (hsg : signatureOk tok key = true)
    (hexp : obj.lookup "exp" = some (JVal.jint n))
    (hiat : validateIat obj now = Except.ok ())
    (hnbf : validateNbf obj now = Except.ok ()) :
    (jwtDecode tok key now = Except.error VerifyErr.expiredSignature ↔ n ≤ now) := by
  obtain ⟨lj, hl, hp⟩ := claimsOf_inv tok obj hcl
  unfold signatureOk at hsg
  rw [hl] at hsg
  have hsg' : verifySignature key lj = Except.ok () := of_decide_eq_true hsg
  have hdec : jwtDecode tok key now =
      ((validateExp obj now >>= fun _ => validateSub obj) >>= fun _ =>
        (pure obj : Except VerifyErr JObj)) := by
    unfold jwtDecode
    rw [except_bind_okk _ _ _ hl, except_bind_okk _ _ _ hsg',
      except_bind_okk _ _ _ hp]
    unfold validateClaims
    rw [except_bind_okk _ _ _ hiat, except_bind_okk _ _ _ hnbf]
  have hve : validateExp obj now =
      (if n ≤ now then Except.error VerifyErr.expiredSignature else Except.ok ()) := by
    unfold validateExp
    rw [hexp]
    rfl
  rw [hdec, hve]
  by_cases hle : n ≤ now
  · simp only [hle, if_true, iff_true]
    rfl
  · simp only [hle, if_false, iff_false]
    cases hvs : validateSub obj with
    | ok u =>
      cases u
      simp [Bind.bind, Except.bind, hvs, pure, Except.pure]
    | error e =>
      have he := validateSub_err obj e hvs
      subst he
      simp [Bind.bind, Except.bind, hvs]

theorem exp_boundary_denies (tok key : String) (now : Int) (obj : JObj) (n : Int)
    (hcl : claimsOf tok = some obj)
    (hexp : obj.lookup "exp" = some (JVal.jint n)) (hle : n ≤ now) :
    ∀ obj2, jwtDecode tok key now ≠ Except.ok obj2 := by
  intro obj2 hok
  obtain ⟨lj, hl, hsg, hpay, hval⟩ := jwtDecode_ok_stages _ _ _ _ hok
  obtain ⟨lj', hl', hp'⟩ := claimsOf_inv tok obj hcl
  rw [hl] at hl'
  have hlj : lj' = lj := by
    simpa using hl'.symm
  subst hlj
  rw [hpay] at hp'
  have hobj : obj = obj2 := by
    simpa using hp'.symm
  subst hobj
  unfold validateClaims at hval
  obtain ⟨u, hiat, hval⟩ := except_bind_ok _ _ _ hval
  cases u
  obtain ⟨u, hnbf, hval⟩ := except_bind_ok _ _ _ hval
  cases u
  obtain ⟨u, hexpok, hval⟩ := except_bind_ok _ _ _ hval
  cases u
  unfold validateExp at hexpok
  rw [hexp] at hexpok
  simp only [intFromJVal] at hexpok
  rw [if_pos hle] at hexpok
  simp at hexpok

theorem alg_of_ok (tok key : String) (now : Int) (obj : JObj)
    (h : jwtDecode tok key now = Except.ok obj) :
    headerAlgOf tok = some "HS256" := by
  obtain ⟨lj, hload, hsig, _, _⟩ := jwtDecode_ok_stages tok key now obj h
  obtain ⟨halg, _⟩ := verifySignature_ok_inv key lj hsig
  unfold headerAlgOf
  rw [hload]
  simp only [halg]

theorem alg_other_denied (tok key : String) (now : Int) (a : String)
    (h : headerAlgOf tok = some a) (hne : a ≠ "HS256") :
    jwtDecode tok key now = Except.error VerifyErr.invalidAlgorithm := by
  unfold headerAlgOf at h
  split at h
  · simp at h
  · rename_i lj hl
    split at h
    · rename_i a0 hlk
      simp only [Option.some.injEq] at h
      subst h
      have hsig : verifySignature key lj = Except.error VerifyErr.invalidAlgorithm := by
        unfold verifySignature
        rw [hlk]
        simp [hne]
      exact jwtDecode_of_sig_error _ _ _ _ _ hl hsig
    · simp at h

theorem gate_depends (req1 req2 : HttpRequest)
    (h1 : req1.authHeader = req2.authHeader) (h2 : req1.clockNow = req2.clockNow) :
    jwt_required_gate req1 = jwt_required_gate req2 := by
  unfold jwt_required_gate
  rw [h1, h2]

theorem claimsOf_generate (s : String) (t : Int) :
    claimsOf (generate_jwt_token s t) =
      some [("sub", JVal.jstr s), ("iat", JVal.jint (t - 1)),
        ("exp", JVal.jint (t + JWT_EXPIRATION_DELTA))] := by
  unfold claimsOf generate_jwt_token
  rw [jwsLoad_jwtEncode]
  have hpay : parsePayload (utf8Encode (serObjChars
      [("sub", JVal.jstr s), ("iat", JVal.jint (t - 1)),
        ("exp", JVal.jint (t + JWT_EXPIRATION_DELTA))])) =
      Except.ok [("sub", JVal.jstr s), ("iat", JVal.jint (t - 1)),
        ("exp", JVal.jint (t + JWT_EXPIRATION_DELTA))] := by
    unfold parsePayload
    simp only [utf8Decode_utf8Encode, parseObjChars_serObjChars]
  simp only [hpay]

/-- Claim C1: for every non-empty subject `s` and time `t`, verifying the
token issued for `s` at `t`, at time `t + 1` with the same secret, yields a
Granted decision (the decoded payload) whose subject equals `s`. -/
theorem claim_c1_roundtrip (s : String) (t : Int) (hs : s ≠ "") :
    ∃ obj, jwtDecode (generate_jwt_token s t) JWT_SECRET_KEY (t + 1) = Except.ok obj ∧
      obj.lookup "sub" = some (JVal.jstr s) := by
  refine ⟨_, jwtDecode_generate s t (t + 1) (by omega) (by omega), ?_⟩
  rfl

/-- Witness for C1 at subject `"usuario_demo"`, `t = 1000`. -/
theorem claim_c1_roundtrip_witness :
    ∃ obj, jwtDecode (generate_jwt_token "usuario_demo" 1000) JWT_SECRET_KEY (1000 + 1) =
      Except.ok obj ∧ obj.lookup "sub" = some (JVal.jstr "usuario_demo") :=
  claim_c1_roundtrip "usuario_demo" 1000 (by decide)

/-- Claim C2: on every denial of the gate the wrapped operation is not
invoked (the outcome is the gate's error, independent of the wrapped
function), and the wrapped operation's result is returned only after the
gate granted. -/
theorem claim_c2_never_invoked (req : HttpRequest) {α : Type} (f g : JObj → α) :
    (∀ e, jwt_required_gate req = Except.error e →
      decorated_function f req = Except.error e ∧
      decorated_function f req = decorated_function g req) ∧
    (∀ v, decorated_function f req = Except.ok v →
      ∃ p, jwt_required_gate req = Except.ok p ∧ v = f p) := by
  constructor
  · intro e he
    unfold decorated_function
    rw [he]
    exact ⟨rfl, rfl⟩
  · intro v hv
    unfold decorated_function at hv
    cases hg : jwt_required_gate req with
    | error e => rw [hg] at hv; simp at hv
    | ok p =>
      rw [hg] at hv
      simp only [Except.ok.injEq] at hv
      exact ⟨p, rfl, hv.symm⟩

/-- Witness for C2 on the missing-header denial with two different wrapped
functions. -/
theorem claim_c2_never_invoked_witness :
    decorated_function (fun _ => (0 : Nat)) ⟨none, [], 0⟩ =
      Except.error ("Token inválido ", 401) ∧
    decorated_function (fun _ => (0 : Nat)) ⟨none, [], 0⟩ =
      decorated_function (fun _ => (1 : Nat)) ⟨none, [], 0⟩ :=
  (claim_c2_never_invoked ⟨none, [], 0⟩ (fun _ => (0 : Nat)) (fun _ => (1 : Nat))).1
    ("Token inválido ", 401) rfl

/-- Counterexample to C3 as stated: a validly-signed token whose claims
parse with `exp = 4000` and `iat = 5000`, verified at `now = 4500 ≥ exp`,
is denied as `ImmatureSignatureError` (PyJWT validates `iat` before
`exp`), not as `ExpiredSignatureError`, refuting the if-and-only-if. -/
theorem claim_c3_counterexample :
    claimsOf (jwtEncode [("sub", JVal.jstr "x"), ("iat", JVal.jint 5000),
        ("exp", JVal.jint 4000)] JWT_SECRET_KEY) =
      some [("sub", JVal.jstr "x"), ("iat", JVal.jint 5000), ("exp", JVal.jint 4000)] ∧
    signatureOk (jwtEncode [("sub", JVal.jstr "x"), ("iat", JVal.jint 5000),
        ("exp", JVal.jint 4000)] JWT_SECRET_KEY) JWT_SECRET_KEY = true ∧
    (4000 : Int) ≤ 4500 ∧
    jwtDecode (jwtEncode [("sub", JVal.jstr "x"), ("iat", JVal.jint 5000),
        ("exp", JVal.jint 4000)] JWT_SECRET_KEY) JWT_SECRET_KEY 4500 =
      Except.error VerifyErr.immatureSignature ∧
    jwtDecode (jwtEncode [("sub", JVal.jstr "x"), ("iat", JVal.jint 5000),
        ("exp", JVal.jint 4000)] JWT_SECRET_KEY) JWT_SECRET_KEY 4500 ≠
      Except.error VerifyErr.expiredSignature := by
  refine ⟨by decide, by decide, by decide, by decide, by decide⟩

/-- Claim C3 amended: for a token whose claims parse with integer expiry
`n`, when the signature verifies and the `iat`/`nbf` validations (which
PyJWT runs first) pass, verification yields the expired denial exactly
when `now ≥ n`; and whenever `now ≥ n` (the boundary included) the
decision is never Granted, whatever else the token contains. -/
theorem claim_c3_amended (tok key : String) (now : Int) (obj : JObj) (n : Int)
    (hcl : claimsOf tok = some obj)
    (hexp : obj.lookup "exp" = some (JVal.jint n)) :
    (signatureOk tok key = true → validateIat obj now = Except.ok () →
      validateNbf obj now = Except.ok () →
      (jwtDecode tok key now = Except.error VerifyErr.expiredSignature ↔ n ≤ now)) ∧
    (n ≤ now → ∀ obj2, jwtDecode tok key now ≠ Except.ok obj2) :=
  ⟨fun hsg hiat hnbf => expiry_iff tok key now obj n hcl hsg hexp hiat hnbf,
   fun hle => exp_boundary_denies tok key now obj n hcl hexp hle⟩

/-- Witness for amended C3 at the exact boundary `now = exp = 4600`. -/
theorem claim_c3_amended_witness :
    jwtDecode (generate_jwt_token "usuario_demo" 1000) JWT_SECRET_KEY 4600 =
      Except.error VerifyErr.expiredSignature := by
  have h := claim_c3_amended (generate_jwt_token "usuario_demo" 1000) JWT_SECRET_KEY
    4600 [("sub", JVal.jstr "usuario_demo"), ("iat", JVal.jint 999),
      ("exp", JVal.jint 4600)] 4600 (by decide) (by decide)
  exact (h.1 (by decide) (by decide) (by decide)).mpr (by decide)

/-- Counterexample to C4 as stated: flipping the first payload-segment
character of a valid token to `'.'` (a different character, so a
single-character flip) makes the altered token fail base64url decoding of
its payload — a `DecodeError` ("Invalid payload padding"), not the
`InvalidSignatureError` the claim requires for every flip. -/
theorem claim_c4_counterexample :
    jwtDecode (generate_jwt_token "usuario_demo" 1000) JWT_SECRET_KEY 1000 =
      Except.ok [("sub", JVal.jstr "usuario_demo"), ("iat", JVal.jint 999),
        ("exp", JVal.jint 4600)] ∧
    ('.' : Char) ≠ (payloadSegOf (generate_jwt_token "usuario_demo" 1000)).getD 0 'A' ∧
    jwtDecode (flipPayloadChar (generate_jwt_token "usuario_demo" 1000) 0 '.')
        JWT_SECRET_KEY 1000 = Except.error VerifyErr.invalidPayloadPadding ∧
    VerifyErr.invalidPayloadPadding ≠ VerifyErr.signatureMismatch := by
  exact ⟨by decide, by decide, by decide, by decide⟩

/-- Claim C4 amended: for every token that verifies and every
single-character change of its payload segment, the altered token is never
Granted; when the replacement character lies in the base64url alphabet the
denial is specifically the signature mismatch (`InvalidSignatureError`),
otherwise the altered payload segment no longer base64url-decodes and the
denial is the malformed-token `DecodeError` (surfaced by the route as the
same 401 response). -/
theorem claim_c4_amended (tok key : String) (now now2 : Int) (obj : JObj)
    (i : Nat) (c' : Char)
    (hok : jwtDecode tok key now = Except.ok obj)
    (hi : i < (payloadSegOf tok).length)
    (hne : c' ≠ (payloadSegOf tok).getD i 'A') :
    (∀ obj2, jwtDecode (flipPayloadChar tok i c') key now2 ≠ Except.ok obj2) ∧
    ((alphaIdx c').isSome →
      jwtDecode (flipPayloadChar tok i c') key now2 =
        Except.error VerifyErr.signatureMismatch) := by
  have h := flip_cases tok key now now2 obj i c' hok hi hne
  exact ⟨h.2, h.1⟩

/-- Witness for amended C4: flipping position 0 of the payload segment to
`'f'` (in the alphabet) yields the signature-mismatch denial. -/
theorem claim_c4_amended_witness :
    jwtDecode (flipPayloadChar (generate_jwt_token "usuario_demo" 1000) 0 'f')
      JWT_SECRET_KEY 1000 = Except.error VerifyErr.signatureMismatch := by
  have h := claim_c4_amended (generate_jwt_token "usuario_demo" 1000) JWT_SECRET_KEY
    1000 1000 [("sub", JVal.jstr "usuario_demo"), ("iat", JVal.jint 999),
      ("exp", JVal.jint 4600)] 0 'f' (by decide) (by decide) (by decide)
  exact h.2 (by decide)

/-- Counterexample to C5 as stated: the verifier's time comes from a
system-clock reading inside `jwt.decode` (the code passes no time), and
that reading does influence the outcome: two requests identical except for
the clock reading get different decisions, so "no internal read of the
system clock influences the outcome" fails. -/
theorem claim_c5_counterexample :
    jwt_required_gate ⟨some ("Bearer " ++ generate_jwt_token "usuario_demo" 1000),
        [], 1000⟩ =
      Except.ok [("sub", JVal.jstr "usuario_demo"), ("iat", JVal.jint 999),
        ("exp", JVal.jint 4600)] ∧
    jwt_required_gate ⟨some ("Bearer " ++ generate_jwt_token "usuario_demo" 1000),
        [], 4600⟩ =
      Except.error ("Token expirado", 401) := by
  exact ⟨by decide, by decide⟩

/-- Claim C5 amended: verification is a deterministic function of the
authorization header (hence of the token string), the shared secret
(process-wide constant) and the clock reading `now`: any two requests
agreeing on header and clock reading get the same decision, whatever the
rest of the request contains — but `now` is read internally by
`jwt.decode`, not supplied by the caller, and it does change the outcome. -/
theorem claim_c5_amended (req1 req2 : HttpRequest) {α : Type} (f : JObj → α)
    (h1 : req1.authHeader = req2.authHeader) (h2 : req1.clockNow = req2.clockNow) :
    decorated_function f req1 = decorated_function f req2 := by
  unfold decorated_function
  rw [gate_depends req1 req2 h1 h2]

/-- Witness for amended C5: two requests differing only in the JSON body. -/
theorem claim_c5_amended_witness :
    decorated_function (fun o => o) ⟨none, [("a", "b")], 5⟩ =
      decorated_function (fun o => o) ⟨none, [], 5⟩ :=
  claim_c5_amended ⟨none, [("a", "b")], 5⟩ ⟨none, [], 5⟩ (fun o => o) rfl rfl

/-- Counterexample to C6 as stated: the absent-header denial and the
malformed-header denial surface the identical response
`('Token inválido ', 401)`, so the two reasons are not distinguishable in
the surfaced outcome. -/
theorem claim_c6_counterexample :
    jwt_required_gate ⟨none, [], 0⟩ = Except.error ("Token inválido ", 401) ∧
    jwt_required_gate ⟨some "Token abc", [], 0⟩ =
      Except.error ("Token inválido ", 401) ∧
    jwt_required_gate ⟨none, [], 0⟩ = jwt_required_gate ⟨some "Token abc", [], 0⟩ := by
  exact ⟨by decide, by decide, by decide⟩

/-- Claim C6 amended: an absent header is denied; an empty-string header
takes the same absent branch (`if not auth_header`); a present header that
does not split into exactly two whitespace-separated fields with first
field case-insensitively `"Bearer"` is denied — but all three denials
carry the same body `('Token inválido ', 401)`, so the reasons are not
distinguishable externally. -/
theorem claim_c6_amended (req : HttpRequest) :
    (req.authHeader = none →
      jwt_required_gate req = Except.error ("Token inválido ", 401)) ∧
    (req.authHeader = some "" →
      jwt_required_gate req = Except.error ("Token inválido ", 401)) ∧
    (∀ h, req.authHeader = some h → h ≠ "" →
      ((pySplitWS h).length ≠ 2 ∨ pyLower ((pySplitWS h).headD "") ≠ "bearer") →
      jwt_required_gate req = Except.error ("Token inválido ", 401)) := by
  refine ⟨?_, ?_, ?_⟩
  · intro h
    unfold jwt_required_gate
    rw [h]
  · intro h
    unfold jwt_required_gate
    rw [h]
    rfl
  · intro hv h hne hcond
    unfold jwt_required_gate
    rw [h]
    simp only [if_neg hne, if_pos hcond]

/-- Witness for amended C6: the three denial shapes at concrete requests. -/
theorem claim_c6_amended_witness :
    jwt_required_gate ⟨none, [], 0⟩ = Except.error ("Token inválido ", 401) ∧
    jwt_required_gate ⟨some "", [], 0⟩ = Except.error ("Token inválido ", 401) ∧
    jwt_required_gate ⟨some "Bearer", [], 0⟩ =
      Except.error ("Token inválido ", 401) :=
  ⟨(claim_c6_amended ⟨none, [], 0⟩).1 rfl,
   (claim_c6_amended ⟨some "", [], 0⟩).2.1 rfl,
   (claim_c6_amended ⟨some "Bearer", [], 0⟩).2.2 "Bearer" rfl (by decide) (by decide)⟩

/-- Counterexample to C7 as stated: a validly-signed token whose payload is
the empty JSON object — missing both `subject` and `expiresAt` — is
accepted (Granted), not denied as `MalformedToken`: `jwt.decode` does not
require these claims by default. -/
theorem claim_c7_counterexample :
    claimsOf (jwtEncode [] JWT_SECRET_KEY) = some [] ∧
    signatureOk (jwtEncode [] JWT_SECRET_KEY) JWT_SECRET_KEY = true ∧
    jwtDecode (jwtEncode [] JWT_SECRET_KEY) JWT_SECRET_KEY 0 = Except.ok [] := by
  exact ⟨by decide, by decide, by decide⟩

/-- Claim C7 amended: missing `sub`/`exp` claims are accepted — a
validly-signed token with an empty payload object is Granted at every
verification time; a wrong-typed (non-string) `sub` is denied
(`InvalidSubjectError`), and a wrong-typed `exp` that does not coerce to
an integer is denied (`DecodeError`); none of these denials is a distinct
MalformedToken outcome at the route level. -/
theorem claim_c7_amended (key : String) (now : Int) :
    jwtDecode (jwtEncode [] key) key now = Except.ok [] ∧
    jwtDecode (jwtEncode [("sub", JVal.jint 7)] key) key now =
      Except.error VerifyErr.invalidSubject ∧
    jwtDecode (jwtEncode [("exp", JVal.jstr "abc")] key) key now =
      Except.error VerifyErr.invalidExpiration := by
  refine ⟨?_, ?_, ?_⟩
  · rw [jwtDecode_jwtEncode]
    rfl
  · rw [jwtDecode_jwtEncode]
    rfl
  · rw [jwtDecode_jwtEncode]
    rfl

/-- Claim C8: for every non-empty subject and issuance time `now`, the
claims embedded in the issued token are `iat = now - 1` and
`exp = now + JWT_EXPIRATION_DELTA` with the default window of 3600
seconds; issuing at `now = 1000` yields `iat = 999`, `exp = 4600`,
recoverable via a Granted decision at verification time 1000. -/
theorem claim_c8_claims (s : String) (now : Int) (hs : s ≠ "") :
    JWT_EXPIRATION_DELTA = 3600 ∧
    claimsOf (generate_jwt_token s now) =
      some [("sub", JVal.jstr s), ("iat", JVal.jint (now - 1)),
        ("exp", JVal.jint (now + 3600))] ∧
    jwtDecode (generate_jwt_token "usuario_demo" 1000) JWT_SECRET_KEY 1000 =
      Except.ok [("sub", JVal.jstr "usuario_demo"), ("iat", JVal.jint 999),
        ("exp", JVal.jint 4600)] := by
  refine ⟨rfl, ?_, by decide⟩
  have h := claimsOf_generate s now
  rw [show (JWT_EXPIRATION_DELTA : Int) = 3600 from rfl] at h
  exact h

/-- Witness for C8 at subject `"usuario_demo"`, `now = 1000`. -/
theorem claim_c8_claims_witness :
    claimsOf (generate_jwt_token "usuario_demo" 1000) =
      some [("sub", JVal.jstr "usuario_demo"), ("iat", JVal.jint 999),
        ("exp", JVal.jint 4600)] := by
  have h := (claim_c8_claims "usuario_demo" 1000 (by decide)).2.1
  have h1 : (1000 : Int) - 1 = 999 := by decide
  have h2 : (1000 : Int) + 3600 = 4600 := by decide
  rw [h1, h2] at h
  exact h

/-- Counterexample to C9 as stated: issuing for the empty subject does not
fail with any `InvalidSubject` error — `generate_jwt_token` has no subject
precondition and returns a normal signed token, which even verifies. -/
theorem claim_c9_counterexample :
    jwtDecode (generate_jwt_token "" 0) JWT_SECRET_KEY 0 =
      Except.ok [("sub", JVal.jstr ""), ("iat", JVal.jint (-1)),
        ("exp", JVal.jint 3600)] := by
  decide

/-- Claim C9 amended: issuance never fails — for every subject, the empty
one included, `generate_jwt_token` returns a signed token that verifies;
empty usernames are rejected only by the `login` route, with the
credential error `('Credenciales inválidas', 401)`, before any token is
issued. -/
theorem claim_c9_amended (s : String) (t : Int) :
    (∃ obj, jwtDecode (generate_jwt_token s t) JWT_SECRET_KEY (t + 1) =
      Except.ok obj) ∧
    (∀ req : HttpRequest, req.jsonBody.lookup "username" = some "" →
      login req = Except.error ("Credenciales inválidas", 401)) := by
  constructor
  · exact ⟨_, jwtDecode_generate s t (t + 1) (by omega) (by omega)⟩
  · intro req hu
    unfold login
    rw [hu]
    cases hp : req.jsonBody.lookup "password" with
    | none => rfl
    | some p => simp

/-- Witness for amended C9: a login request with an empty username. -/
theorem claim_c9_amended_witness :
    login ⟨none, [("username", ""), ("password", "x")], 5⟩ =
      Except.error ("Credenciales inválidas", 401) :=
  (claim_c9_amended "" 0).2 ⟨none, [("username", ""), ("password", "x")], 5⟩ rfl

/-- Claim C10: algorithm pinning — a token is Granted only if its header
declares the `HS256` algorithm, and every token whose header declares any
other algorithm (the unsigned `"none"` included) is denied with the
invalid-algorithm error, never Granted. -/
theorem claim_c10_alg_pinning :
    (∀ (tok key : String) (now : Int) (obj : JObj),
      jwtDecode tok key now = Except.ok obj → headerAlgOf tok = some "HS256") ∧
    (∀ (tok key : String) (now : Int) (a : String),
      headerAlgOf tok = some a → a ≠ "HS256" →
      jwtDecode tok key now = Except.error VerifyErr.invalidAlgorithm) :=
  ⟨alg_of_ok, alg_other_denied⟩

/-- Witness for C10: a hand-built token whose header declares
`alg = "none"` (with empty payload object and empty signature) is denied
with the invalid-algorithm error. -/
theorem claim_c10_alg_pinning_witness :
    headerAlgOf (String.mk (b64Encode (utf8Encode (serObjChars
        [("typ", JVal.jstr "JWT"), ("alg", JVal.jstr "none")])) ++
      ('.' :: (b64Encode (utf8Encode (serObjChars ([] : JObj))) ++
        ('.' :: b64Encode []))))) = some "none" ∧
    jwtDecode (String.mk (b64Encode (utf8Encode (serObjChars
        [("typ", JVal.jstr "JWT"), ("alg", JVal.jstr "none")])) ++
      ('.' :: (b64Encode (utf8Encode (serObjChars ([] : JObj))) ++
        ('.' :: b64Encode []))))) JWT_SECRET_KEY 0 =
      Except.error VerifyErr.invalidAlgorithm :=
  ⟨by decide,
   claim_c10_alg_pinning.2 _ JWT_SECRET_KEY 0 "none" (by decide) (by decide)⟩
